import Mathlib

set_option maxHeartbeats 1000000
set_option synthInstance.maxSize 512

/-
Shallow embedding of the chess engine in src/lib.rs of the repository
IndaPlus23/eliassam-chess, together with proofs about it.

Conventions used throughout:

* A coordinate vector (the Rust Vec<i8> values [row, column]) is embedded
  as Pos := List Int.  Row 0 is the black back rank, column 0 is file a.
  The empty list models the empty Vec (which the king finder leaves behind
  when no king is present).

* The chessboard (Rust Vec<Vec<Option<Piece>>>) is embedded as
  List (List (Option Piece)); all boards built by the program are 8 x 8.

* Rust code that can panic (out-of-bounds indexing, unwrap on None,
  parse().unwrap()) is embedded with an Option result: none models a
  panic, some models a normal return.  The source functions
  available_moves, make_move and load_fen return Option values
  themselves and that inner option is kept: make_move embeds as
  Game -> List Char -> List Char -> Option (Option GameState x Game),
  where the outer option distinguishes panicking from returning, the
  inner option is the return value of the source function, and the Game
  component is the (possibly mutated) self.  In the source the Option
  returned by available_moves is always Some and the unwrap calls on it
  never fail; here the Option layer of available_moves is reused to
  propagate panics from the simulations it performs.

* Strings are embedded as List Char.
-/

inductive GameState where
  | InProgress
  | Check
  | Checkmate
  | Stalemate
  deriving DecidableEq

inductive PieceRole where
  | Pawn
  | Rook
  | Knight
  | Bishop
  | Queen
  | King
  deriving DecidableEq

inductive Color where
  | White
  | Black
  deriving DecidableEq

structure Piece where
  role : PieceRole
  color : Color
  has_moved : Bool
  deriving DecidableEq

abbrev Pos := List Int

abbrev Board := List (List (Option Piece))

structure Game where
  state : GameState
  chessboard : Board
  turn : Color
  ep_square : Option Pos
  halfmove : Nat
  fullmove : Nat
  deriving DecidableEq

/-- Row coordinate of a position vector (index 0 of the Vec). -/
def px (p : Pos) : Int := p.getD 0 0

/-- Column coordinate of a position vector (index 1 of the Vec). -/
def py (p : Pos) : Int := p.getD 1 0

/-- The bounds check move_okay of the source: both coordinates in 0..=7.
The same condition characterises the indices at which the 8 x 8 board can
be indexed without panicking. -/
def move_okay (p : Pos) : Bool :=
  decide (0 ≤ px p ∧ px p ≤ 7 ∧ 0 ≤ py p ∧ py p ≤ 7)

/-- Total board lookup: the cell content for an in-bounds index, none
otherwise.  Used where the source indexes squares it has already
bounds-checked. -/
def readSqD (b : Board) (p : Pos) : Option Piece :=
  if move_okay p then (b.getD (px p).toNat []).getD (py p).toNat none else none

/-- Panic-aware board lookup: some cell for an in-bounds index, none (a
modelled panic) otherwise. -/
def readSq (b : Board) (p : Pos) : Option (Option Piece) :=
  if move_okay p then some (readSqD b p) else none

/-- Total board update (no-op out of bounds). -/
def writeSqD (b : Board) (p : Pos) (v : Option Piece) : Board :=
  b.set (px p).toNat ((b.getD (px p).toNat []).set (py p).toNat v)

/-- Panic-aware board update. -/
def writeSq (b : Board) (p : Pos) (v : Option Piece) : Option Board :=
  if move_okay p then some (writeSqD b p v) else none

/-- All 64 squares in row-major order: the iteration order of the nested
loops over the 8 x 8 chessboard in the source. -/
def squaresRM : List Pos :=
  (List.range 8).flatMap fun r => (List.range 8).map fun c => [Int.ofNat r, Int.ofNat c]

/-- The square reached from pos by k steps in direction d, as built by the
source expression vec![pos[0]+offset*dir[0], pos[1]+offset*dir[1]]. -/
def step (pos d : Pos) (k : Int) : Pos := [px pos + k * px d, py pos + k * py d]

def rookDirs : List Pos := [[-1, 0], [0, 1], [1, 0], [0, -1]]

def bishopDirs : List Pos := [[-1, 1], [1, 1], [1, -1], [-1, -1]]

def queenDirs : List Pos :=
  [[-1, 0], [-1, 1], [0, 1], [1, 1], [1, 0], [1, -1], [0, -1], [-1, -1]]

def knightOffsets : List Pos :=
  [[-2, 1], [-1, 2], [1, 2], [2, 1], [2, -1], [1, -2], [-1, -2], [-2, -1]]

def kingOffsets : List Pos :=
  [[-1, 0], [-1, 1], [0, 1], [1, 1], [1, 0], [1, -1], [0, -1], [-1, -1]]

/-- One offset of the sliding-piece loop: processes every direction in
order at the given offset, pushing the reached square when the direction
is still alive and the square is on the board, and killing the direction
when the reached square is occupied.  Returns the updated direction
states and the squares pushed at this offset. -/
def slidePass (b : Board) (pos : Pos) (off : Int) :
    List (Pos × Bool) → List (Pos × Bool) × List Pos
  | [] => ([], [])
  | (d, alive) :: rest =>
    let r := slidePass b pos off rest
    if alive then
      let t := step pos d off
      if move_okay t then
        ((d, !(readSqD b t).isSome) :: r.1, t :: r.2)
      else ((d, alive) :: r.1, r.2)
    else ((d, false) :: r.1, r.2)

/-- The offset-major double loop of the sliding pieces (for offset in 1..=7,
for dir_index in 0..=3 or 0..=7). -/
def slideAll (b : Board) (pos : Pos) : List Int → List (Pos × Bool) → List Pos
  | [], _ => []
  | off :: offs, st =>
    let r := slidePass b pos off st
    r.2 ++ slideAll b pos offs r.1

/-- Candidate squares of a sliding piece at pos moving along dirs. -/
def slide (b : Board) (pos : Pos) (dirs : List Pos) : List Pos :=
  slideAll b pos [1, 2, 3, 4, 5, 6, 7] (dirs.map fun d => (d, true))

/-- The candidate moves pushed by the per-role match of available_moves,
excluding the castling block of the King arm (which needs the check
detector and is kept separate, see qcastle and kcastle).  The knight and
king arms of the source are eight consecutive bounds-checked pushes,
embedded as map-then-filter which produces the same list in the same
order. -/
def rawMoves (pc : Piece) (b : Board) (ep : Option Pos) (pos : Pos)
    (onlyAttack : Bool) : List Pos :=
  match pc.role with
  | PieceRole.Pawn =>
    let wb : Int := if pc.color = Color.White then -1 else 1
    let dl : Pos := [px pos + wb, py pos - 1]
    let dr : Pos := [px pos + wb, py pos + 1]
    let f1 : Pos := [px pos + wb, py pos]
    let f2 : Pos := [px pos + 2 * wb, py pos]
    (if move_okay dl ∧ ((readSqD b dl).isSome ∨ ep = some dl) then [dl] else []) ++
    (if move_okay dr ∧ ((readSqD b dr).isSome ∨ ep = some dr) then [dr] else []) ++
    (if ¬onlyAttack ∧ move_okay f1 ∧ (readSqD b f1).isNone then
       [f1] ++
       (if ¬pc.has_moved ∧ move_okay f2 ∧ (readSqD b f2).isNone then [f2] else [])
     else [])
  | PieceRole.Rook => slide b pos rookDirs
  | PieceRole.Knight => (knightOffsets.map fun d => step pos d 1).filter move_okay
  | PieceRole.Bishop => slide b pos bishopDirs
  | PieceRole.Queen => slide b pos queenDirs
  | PieceRole.King => (kingOffsets.map fun d => step pos d 1).filter move_okay

/-- The retain predicate of available_moves: keep a candidate square when
it is empty or holds a piece of the other color. -/
def keepSquare (b : Board) (pc : Piece) (x : Pos) : Bool :=
  match readSqD b x with
  | none => true
  | some q => decide (q.color ≠ pc.color)

/-- The instance available_moves(game, pos, only_attack_moves, true) of the
source, specialised to ignore_check = true: the castling block and the
final self-check filter are both skipped, so only the per-role candidates
and the retain filter remain.  The lemma available_moves_ignore_check
below connects this definition to the full available_moves. -/
def movesIgnoreCheck (pc : Piece) (b : Board) (ep : Option Pos) (pos : Pos)
    (onlyAttack : Bool) : List Pos :=
  (rawMoves pc b ep pos onlyAttack).filter (keepSquare b pc)

/-- The predicate of the king-finding scan in in_check. -/
def isKingSq (b : Board) (c : Color) (p : Pos) : Bool :=
  match readSqD b p with
  | some q => decide (q.color = c ∧ q.role = PieceRole.King)
  | none => false

/-- The king-finding scan of in_check: the first square in row-major order
holding a king of the given color, or the empty vector when there is
none (king_pos is initialised to an empty Vec and never assigned in that
case). -/
def findKingPos (b : Board) (c : Color) : Pos :=
  match squaresRM.find? (isKingSq b c) with
  | some p => p
  | none => []

/-- The body of in_check, which only reads the chessboard and the en
passant square of the game it receives: find the king of the given
color, then test whether any piece of the other color attacks that
square with its moves generated in attack-only, ignore-check mode. -/
def inCheckB (b : Board) (ep : Option Pos) (c : Color) : Bool :=
  let kp := findKingPos b c
  squaresRM.any fun p =>
    match readSqD b p with
    | some q =>
      if q.color ≠ c then (movesIgnoreCheck q b ep p true).contains kp else false
    | none => false

/-- Game::in_check of the source. -/
def in_check (g : Game) (c : Color) : Bool := inCheckB g.chessboard g.ep_square c

/-- The throwaway game value built for the check simulations inside the
castling blocks: Game { state: InProgress, chessboard: board.clone(),
turn: color, ep_square: None, halfmove: 0, fullmove: 1 }. -/
def mkSim (b : Board) (c : Color) : Game :=
  { state := GameState.InProgress, chessboard := b, turn := c,
    ep_square := none, halfmove := 0, fullmove := 1 }

/-- The board copy built inside the castling blocks: the king removed from
pos and placed (as a moved piece) on target. -/
def simKingAt (b : Board) (c : Color) (pos target : Pos) : Option Game :=
  match writeSq b pos none with
  | none => none
  | some b1 =>
    match writeSq b1 target (some ⟨PieceRole.King, c, true⟩) with
    | none => none
    | some b2 => some (mkSim b2 c)

/-- The queenside castling block of the King arm of available_moves
(reached only when ignore_check is false).  The source loop for i in
1..=3 with break is unrolled; the check simulation is skipped for i = 3,
where the candidate square pos[1] - 2 is pushed instead. -/
def qcastle (pc : Piece) (b : Board) (pos : Pos) : Option (List Pos) :=
  if ¬(in_check (mkSim b pc.color) pc.color) ∧ ¬pc.has_moved then
    match readSq b [px pos, py pos - 4] with
    | none => none
    | some (some rk) =>
      if rk.role = PieceRole.Rook ∧ ¬rk.has_moved then
        match readSq b [px pos, py pos - 1] with
        | none => none
        | some s1 =>
          if s1.isSome then some []
          else
            match simKingAt b pc.color pos [px pos, py pos - 1] with
            | none => none
            | some g1 =>
              if in_check g1 pc.color then some []
              else
                match readSq b [px pos, py pos - 2] with
                | none => none
                | some s2 =>
                  if s2.isSome then some []
                  else
                    match simKingAt b pc.color pos [px pos, py pos - 2] with
                    | none => none
                    | some g2 =>
                      if in_check g2 pc.color then some []
                      else
                        match readSq b [px pos, py pos - 3] with
                        | none => none
                        | some s3 =>
                          if s3.isSome then some []
                          else some [[px pos, py pos - 2]]
      else some []
    | some none => some []
  else some []

/-- The kingside castling block of the King arm of available_moves
(reached only when ignore_check is false).  The source loop for i in
1..=2 with break is unrolled; the candidate square pos[1] + 2 is pushed
when i = 2 survives both the emptiness test and the check simulation. -/
def kcastle (pc : Piece) (b : Board) (pos : Pos) : Option (List Pos) :=
  if ¬(in_check (mkSim b pc.color) pc.color) ∧ ¬pc.has_moved then
    match readSq b [px pos, py pos + 3] with
    | none => none
    | some (some rk) =>
      if rk.role = PieceRole.Rook ∧ ¬rk.has_moved then
        match readSq b [px pos, py pos + 1] with
        | none => none
        | some s1 =>
          if s1.isSome then some []
          else
            match simKingAt b pc.color pos [px pos, py pos + 1] with
            | none => none
            | some g1 =>
              if in_check g1 pc.color then some []
              else
                match readSq b [px pos, py pos + 2] with
                | none => none
                | some s2 =>
                  if s2.isSome then some []
                  else
                    match simKingAt b pc.color pos [px pos, py pos + 2] with
                    | none => none
                    | some g2 =>
                      if in_check g2 pc.color then some []
                      else some [[px pos, py pos + 2]]
      else some []
    | some none => some []
  else some []

/-- Conversion of a coordinate vector back to algebraic notation, as done
by format strings in the source: (97+pos[1]) as u8 as char followed by
(56-pos[0]) as u8 as char. -/
def mvStr (p : Pos) : List Char :=
  [Char.ofNat (97 + py p).toNat, Char.ofNat (56 - px p).toNat]

/-- Conversion of algebraic notation to a coordinate vector, as done by
the source expressions vec![56 - s.chars().nth(1).unwrap() as i8,
s.chars().nth(0).unwrap() as i8 - 97].  A string shorter than two
characters makes the unwrap panic. -/
def parseSq (s : List Char) : Option Pos :=
  (s.get? 1).bind fun c1 =>
  (s.get? 0).bind fun c0 =>
  some [56 - (c1.toNat : Int), (c0.toNat : Int) - 97]

/-- The promotion-letter match of make_move_internal. -/
def promoRole (c : Char) : Option PieceRole :=
  if c = 'q' ∨ c = 'Q' then some PieceRole.Queen
  else if c = 'r' ∨ c = 'R' then some PieceRole.Rook
  else if c = 'n' ∨ c = 'N' then some PieceRole.Knight
  else if c = 'b' ∨ c = 'B' then some PieceRole.Bishop
  else none

/-- The mutation phase of make_move_internal, shared by the silent mode
(skip_move_check = true) and the checked mode: the promotion branch or
else the ordinary move together with en passant capture, en passant
square tracking and castling rook relocation.  Result: none models a
panic, some none the early return None of a rejected promotion (the
board is untouched there), some (some g1) the mutated game. -/
def mutatePhase (g : Game) (t : List Char) (pc : Piece) (fromPos toPos : Pos) :
    Option (Option Game) :=
  if pc.role = PieceRole.Pawn ∧ (px toPos = 0 ∨ px toPos = 7) then
    if t.length < 3 then some none
    else
      match t.get? 2 with
      | none => none
      | some c2 =>
        match promoRole c2 with
        | none => some none
        | some role =>
          match writeSq g.chessboard toPos (some ⟨role, pc.color, true⟩) with
          | none => none
          | some b1 =>
            match writeSq b1 fromPos none with
            | none => none
            | some b2 =>
              some (some { g with chessboard := b2, ep_square := none, halfmove := 0 })
  else
    match readSq g.chessboard toPos with
    | none => none
    | some toCell =>
      match writeSq g.chessboard toPos (some ⟨pc.role, pc.color, true⟩) with
      | none => none
      | some b1 =>
        match writeSq b1 fromPos none with
        | none => none
        | some b2 =>
          match (if g.ep_square = some toPos ∧ pc.role = PieceRole.Pawn then
              writeSq b2 [Int.tdiv (px toPos + 7) 3, py toPos] none
            else some b2) with
          | none => none
          | some b3 =>
            match (if pc.role = PieceRole.King ∧ (py toPos - py fromPos).natAbs = 2 then
                match writeSq b3 [px toPos, py toPos - Int.sign (py toPos - py fromPos)]
                    (some ⟨PieceRole.Rook, pc.color, true⟩) with
                | none => none
                | some b4 => writeSq b4 [px toPos, Int.tdiv (7 * py toPos - 14) 4] none
              else some b3) with
            | none => none
            | some b5 =>
              let ep2 := if pc.role = PieceRole.Pawn ∧ (px toPos - px fromPos).natAbs = 2
                then some [px fromPos + Int.tdiv (px toPos - px fromPos) 2, py fromPos]
                else none
              let hm2 : Nat := if pc.role = PieceRole.Pawn ∨ toCell.isSome then 0
                else g.halfmove + 1
              some (some { g with chessboard := b5, ep_square := ep2, halfmove := hm2 })

/-- make_move_internal with skip_move_check = true: the silent
move-application path used by the self-check filter of available_moves.
It rejects nothing except a terminal state, an empty from square and a
malformed promotion, mutates the board, and returns None (line 233 of
the source) before any status recomputation. -/
def make_move_silent (g : Game) (f t : List Char) : Option (Option GameState × Game) :=
  if g.state = GameState.Checkmate ∨ g.state = GameState.Stalemate then some (none, g)
  else
    match parseSq f with
    | none => none
    | some fromPos =>
      match readSq g.chessboard fromPos with
      | none => none
      | some none => some (none, g)
      | some (some pc) =>
        match parseSq t with
        | none => none
        | some toPos =>
          match mutatePhase g t pc fromPos toPos with
          | none => none
          | some none => some (none, g)
          | some (some g1) => some (none, g1)

/-- The final loop of available_moves: every candidate is simulated with
the silent move application on a clone of the game, and removed from the
move list when the mover would be in check afterwards.  The removal uses
the position of the first equal element, i.e. List.erase. -/
def filterPhase (g : Game) (pc : Piece) (pos : Pos) :
    List Pos → List Pos → Option (List Pos)
  | [], acc => some acc
  | mv :: rest, acc =>
    match make_move_silent g (mvStr pos) (mvStr mv) with
    | none => none
    | some res =>
      if in_check res.2 pc.color then filterPhase g pc pos rest (acc.erase mv)
      else filterPhase g pc pos rest acc

/-- Piece::available_moves of the source.  The castling blocks run only
for a king when ignore_check is false (qcastle first, then kcastle, in
source order); the retain filter always runs; the self-check filter runs
only when ignore_check is false. -/
def available_moves (pc : Piece) (g : Game) (pos : Pos)
    (onlyAttack ignoreCheck : Bool) : Option (List Pos) :=
  match (if pc.role = PieceRole.King ∧ ignoreCheck = false then
      match qcastle pc g.chessboard pos with
      | none => none
      | some q =>
        match kcastle pc g.chessboard pos with
        | none => none
        | some k => some (rawMoves pc g.chessboard g.ep_square pos onlyAttack ++ q ++ k)
    else some (rawMoves pc g.chessboard g.ep_square pos onlyAttack)) with
  | none => none
  | some mvs =>
    if ignoreCheck then some (mvs.filter (keepSquare g.chessboard pc))
    else filterPhase g pc pos (mvs.filter (keepSquare g.chessboard pc))
      (mvs.filter (keepSquare g.chessboard pc))

def oppColor (c : Color) : Color :=
  match c with
  | Color.White => Color.Black
  | Color.Black => Color.White

/-- The checkmate/stalemate scan of make_move_internal over the squares
still to visit: the first piece of the color opposite to turn that has a
non-empty legal move set stops the scan with true. -/
def anyOpponentMoveAux (g : Game) : List Pos → Option Bool
  | [] => some false
  | p :: rest =>
    match readSqD g.chessboard p with
    | some q =>
      if q.color ≠ g.turn then
        match available_moves q g p false false with
        | none => none
        | some mvs =>
          if mvs.length > 0 then some true else anyOpponentMoveAux g rest
      else anyOpponentMoveAux g rest
    | none => anyOpponentMoveAux g rest

def anyOpponentMove (g : Game) : Option Bool := anyOpponentMoveAux g squaresRM

/-- The status assignment at lines 236-240 of the source: the state of
the mutated game becomes Check when the opponent of the mover is in
check, else InProgress. -/
def statusGame (g1 : Game) : Game :=
  { g1 with state := if in_check g1 (oppColor g1.turn) then GameState.Check
      else GameState.InProgress }

/-- The bookkeeping at the two exits of the status recomputation of
make_move_internal: the fullmove clock is incremented after a black
move in both; when the scan found an opponent move the turn flips,
otherwise the state is replaced by Checkmate or Stalemate according to
the same check test (the source evaluates the identical pure in_check
expression again at line 259) and the turn stays. -/
def advanceGame (g2 : Game) (hasMove : Bool) : Game :=
  if hasMove then
    { g2 with
      fullmove := if g2.turn = Color.Black then g2.fullmove + 1 else g2.fullmove,
      turn := oppColor g2.turn }
  else
    { g2 with
      state := if in_check g2 (oppColor g2.turn) then GameState.Checkmate
        else GameState.Stalemate,
      fullmove := if g2.turn = Color.Black then g2.fullmove + 1 else g2.fullmove }

/-- Game::make_move of the source (make_move_internal with
skip_move_check = false): preconditions in source order (terminal state,
empty from square, wrong color, destination not in the legal set), then
the shared mutation phase, then the status recomputation.  The source
evaluates the same in_check expression at lines 236 and 259; being pure
it is evaluated once here. -/
def make_move (g : Game) (f t : List Char) : Option (Option GameState × Game) :=
  if g.state = GameState.Checkmate ∨ g.state = GameState.Stalemate then some (none, g)
  else
    match parseSq f with
    | none => none
    | some fromPos =>
      match readSq g.chessboard fromPos with
      | none => none
      | some none => some (none, g)
      | some (some pc) =>
        match parseSq t with
        | none => none
        | some toPos =>
          if pc.color ≠ g.turn then some (none, g)
          else
            match available_moves pc g fromPos false false with
            | none => none
            | some mvs =>
              if ¬(mvs.contains toPos) then some (none, g)
              else
                match mutatePhase g t pc fromPos toPos with
                | none => none
                | some none => some (none, g)
                | some (some g1) =>
                  match anyOpponentMove (statusGame g1) with
                  | none => none
                  | some has =>
                    if has then
                      some (some (statusGame g1).state, advanceGame (statusGame g1) true)
                    else
                      some (some (advanceGame (statusGame g1) false).state,
                        advanceGame (statusGame g1) false)

def backRank (c : Color) : List (Option Piece) :=
  [some ⟨PieceRole.Rook, c, false⟩, some ⟨PieceRole.Knight, c, false⟩,
   some ⟨PieceRole.Bishop, c, false⟩, some ⟨PieceRole.Queen, c, false⟩,
   some ⟨PieceRole.King, c, false⟩, some ⟨PieceRole.Bishop, c, false⟩,
   some ⟨PieceRole.Knight, c, false⟩, some ⟨PieceRole.Rook, c, false⟩]

def pawnRank (c : Color) : List (Option Piece) :=
  List.replicate 8 (some ⟨PieceRole.Pawn, c, false⟩)

def emptyRank : List (Option Piece) := List.replicate 8 none

/-- Game::new of the source: the standard starting position, every piece
with has_moved = false. -/
def gameNew : Game :=
  { state := GameState.InProgress,
    chessboard := [backRank Color.Black, pawnRank Color.Black, emptyRank, emptyRank,
                   emptyRank, emptyRank, pawnRank Color.White, backRank Color.White],
    turn := Color.White, ep_square := none, halfmove := 0, fullmove := 1 }

/-- Rust str::split on a single separator character: n separators yield
n+1 chunks (empty chunks included). -/
def splitCh (sep : Char) : List Char → List (List Char)
  | [] => [[]]
  | c :: cs =>
    let r := splitCh sep cs
    if c = sep then [] :: r
    else
      match r with
      | [] => [[c]]
      | h :: t => (c :: h) :: t

/-- Rust str::parse::<u64>(): an optional leading plus sign, then at
least one decimal digit, with the value bounded by u64::MAX; anything
else is a parse error, which the source unwraps (a panic). -/
def parseU64 (s : List Char) : Option Nat :=
  let t := match s with
    | '+' :: rest => rest
    | _ => s
  if t = [] then none
  else if t.all Char.isDigit then
    let v := t.foldl (fun a c => a * 10 + (c.toNat - 48)) 0
    if v < 2 ^ 64 then some v else none
  else none

/-- Outcome of a load_fen phase: a modelled panic, the early return None
of the source (stop, keeping the mutations made so far), or normal
completion. -/
inductive FenStep (α : Type) where
  | panic
  | stop (a : α)
  | done (a : α)
  deriving DecidableEq

/-- The piece-letter match of load_fen. -/
def charRole (c : Char) : Option PieceRole :=
  if c = 'p' ∨ c = 'P' then some PieceRole.Pawn
  else if c = 'r' ∨ c = 'R' then some PieceRole.Rook
  else if c = 'n' ∨ c = 'N' then some PieceRole.Knight
  else if c = 'b' ∨ c = 'B' then some PieceRole.Bishop
  else if c = 'q' ∨ c = 'Q' then some PieceRole.Queen
  else if c = 'k' ∨ c = 'K' then some PieceRole.King
  else none

/-- The piece a placement letter creates: uppercase is White; has_moved
is written as true and then reset to false for a pawn standing on its
home rank, which is combined into one write here. -/
def fenPiece (c : Char) (rowIdx : Int) (role : PieceRole) : Piece :=
  let col := if c.isUpper then Color.White else Color.Black
  let hm := if role = PieceRole.Pawn ∧
      ((col = Color.White ∧ rowIdx = 6) ∨ (col = Color.Black ∧ rowIdx = 1)) then
      false else true
  ⟨role, col, hm⟩

/-- The digit case of the placement loop: clear that many consecutive
squares, advancing the column index. -/
def clearRun (rowIdx : Int) : Nat → Int → Board → Option (Int × Board)
  | 0, colIdx, b => some (colIdx, b)
  | n + 1, colIdx, b =>
    match writeSq b [rowIdx, colIdx] none with
    | none => none
    | some b1 => clearRun rowIdx n (colIdx + 1) b1

/-- One rank of placement data: digits clear squares, letters place
pieces, an unknown letter is the early return None of the source (the
board keeps the writes made so far); writes beyond the board are the
indexing panics of the source. -/
def loadRow (rowIdx : Int) : List Char → Int → Board → FenStep Board
  | [], _, b => FenStep.done b
  | c :: cs, colIdx, b =>
    if c.isDigit then
      match clearRun rowIdx (c.toNat - 48) colIdx b with
      | none => FenStep.panic
      | some r => loadRow rowIdx cs r.1 r.2
    else
      match charRole c with
      | none => FenStep.stop b
      | some role =>
        match writeSq b [rowIdx, colIdx] (some (fenPiece c rowIdx role)) with
        | none => FenStep.panic
        | some b1 => loadRow rowIdx cs (colIdx + 1) b1

/-- The placement loop of load_fen over the ranks split at slashes. -/
def loadPlacement : List (List Char) → Int → Board → FenStep Board
  | [], _, b => FenStep.done b
  | row :: rows, rowIdx, b =>
    match loadRow rowIdx row 0 b with
    | FenStep.panic => FenStep.panic
    | FenStep.stop b1 => FenStep.stop b1
    | FenStep.done b1 => loadPlacement rows (rowIdx + 1) b1

/-- Set has_moved to false on the piece at p; an empty square is the
unwrap panic of chessboard[i][j].as_mut().unwrap(). -/
def setUnmoved (b : Board) (p : Pos) : Option Board :=
  (readSq b p).bind fun cell =>
  match cell with
  | none => none
  | some pc => writeSq b p (some { pc with has_moved := false })

/-- The castling-availability loop of load_fen. -/
def loadCastling : List Char → Board → FenStep Board
  | [], b => FenStep.done b
  | c :: cs, b =>
    if c = 'K' then
      match (setUnmoved b [7, 4]).bind fun b1 => setUnmoved b1 [7, 7] with
      | none => FenStep.panic
      | some b1 => loadCastling cs b1
    else if c = 'Q' then
      match (setUnmoved b [7, 4]).bind fun b1 => setUnmoved b1 [7, 0] with
      | none => FenStep.panic
      | some b1 => loadCastling cs b1
    else if c = 'k' then
      match (setUnmoved b [0, 4]).bind fun b1 => setUnmoved b1 [0, 7] with
      | none => FenStep.panic
      | some b1 => loadCastling cs b1
    else if c = 'q' then
      match (setUnmoved b [0, 4]).bind fun b1 => setUnmoved b1 [0, 0] with
      | none => FenStep.panic
      | some b1 => loadCastling cs b1
    else if c = '-' then loadCastling cs b
    else FenStep.stop b

/-- The en passant field of load_fen: a dash clears the square, anything
else is decoded with unchecked character arithmetic (a field shorter
than two characters is an unwrap panic). -/
def loadEp (s : List Char) : Option (Option Pos) :=
  if s = ['-'] then some none
  else
    (s.get? 1).bind fun c1 =>
    (s.get? 0).bind fun c0 =>
    some (some [56 - (c1.toNat : Int), (c0.toNat : Int) - 97])

/-- Game::load_fen of the source.  The source returns None on every path
(also after a fully successful decode); that inner None is kept in the
result pair, and the outer option models the panics (malformed clock
fields, an empty square named by the castling field, out-of-bounds
placement writes, a short en passant field). -/
def load_fen (g : Game) (s : List Char) : Option (Option GameState × Game) :=
  let chapters := splitCh ' ' s
  if chapters.length > 6 then some (none, g)
  else
    let pd := chapters.getD 0 []
    let ac := chapters.getD 1 []
    let ca := chapters.getD 2 []
    let enp := chapters.getD 3 []
    let hm := chapters.getD 4 []
    let fm := chapters.getD 5 []
    match loadPlacement (splitCh '/' pd) 0 g.chessboard with
    | FenStep.panic => none
    | FenStep.stop b1 => some (none, { g with chessboard := b1 })
    | FenStep.done b1 =>
      let g1 := { g with chessboard := b1 }
      match (if ac = ['w'] then some Color.White
             else if ac = ['b'] then some Color.Black else none) with
      | none => some (none, g1)
      | some turn2 =>
        let g2 := { g1 with turn := turn2 }
        match loadCastling ca g2.chessboard with
        | FenStep.panic => none
        | FenStep.stop b2 => some (none, { g2 with chessboard := b2 })
        | FenStep.done b2 =>
          let g3 := { g2 with chessboard := b2 }
          match loadEp enp with
          | none => none
          | some ep2 =>
            let g4 := { g3 with ep_square := ep2 }
            match parseU64 hm with
            | none => none
            | some hmv =>
              let g5 := { g4 with halfmove := hmv }
              match parseU64 fm with
              | none => none
              | some fmv => some (none, { g5 with fullmove := fmv })

/-- Decimal digit characters of a number with explicit recursion fuel
(the to_string calls of the source). -/
def natCharsAux : Nat → Nat → List Char
  | 0, _ => []
  | fuel + 1, n =>
    if n < 10 then [Char.ofNat (48 + n)]
    else natCharsAux fuel (n / 10) ++ [Char.ofNat (48 + n % 10)]

def natChars (n : Nat) : List Char := natCharsAux (n + 1) n

/-- The letter get_fen emits for a piece. -/
def pieceChar (p : Piece) : Char :=
  match p.role with
  | PieceRole.Pawn => if p.color = Color.White then 'P' else 'p'
  | PieceRole.Rook => if p.color = Color.White then 'R' else 'r'
  | PieceRole.Knight => if p.color = Color.White then 'N' else 'n'
  | PieceRole.Bishop => if p.color = Color.White then 'B' else 'b'
  | PieceRole.Queen => if p.color = Color.White then 'Q' else 'q'
  | PieceRole.King => if p.color = Color.White then 'K' else 'k'

/-- One rank of the placement chapter of get_fen, carrying the count of
empty squares seen since the last piece. -/
def rowFenAux : List (Option Piece) → Nat → List Char
  | [], cnt => if cnt > 0 then natChars cnt else []
  | some p :: rest, cnt =>
    (if cnt > 0 then natChars cnt else []) ++ [pieceChar p] ++ rowFenAux rest 0
  | none :: rest, cnt => rowFenAux rest (cnt + 1)

def rowFen (row : List (Option Piece)) : List Char := rowFenAux row 0

/-- The placement chapter of get_fen: every rank followed by a slash,
with the final slash popped. -/
def placementChapter (b : Board) : List Char :=
  (b.flatMap fun row => rowFen row ++ ['/']).dropLast

/-- The rook test of the castling-availability chapter of get_fen. -/
def unmRook (b : Board) (p : Pos) : Bool :=
  match readSqD b p with
  | some q => decide (q.role = PieceRole.Rook) && !q.has_moved
  | none => false

/-- The king test of the castling-availability chapter of get_fen. -/
def unmKing (b : Board) (p : Pos) : Bool :=
  match readSqD b p with
  | some q => decide (q.role = PieceRole.King) && !q.has_moved
  | none => false

/-- The castling-availability chapter of get_fen, recomputed from the
current king and rook squares and their has_moved flags. -/
def castlingChapter (b : Board) : List Char :=
  let s :=
    (if unmKing b [7, 4] then
       (if unmRook b [7, 7] then ['K'] else []) ++
       (if unmRook b [7, 0] then ['Q'] else [])
     else []) ++
    (if unmKing b [0, 4] then
       (if unmRook b [0, 7] then ['k'] else []) ++
       (if unmRook b [0, 0] then ['q'] else [])
     else [])
  if s.length = 0 then ['-'] else s

/-- The en passant chapter of get_fen. -/
def epChapter (ep : Option Pos) : List Char :=
  match ep with
  | some p => [Char.ofNat (97 + py p).toNat, Char.ofNat (56 - px p).toNat]
  | none => ['-']

/-- Game::get_fen of the source: the six chapters joined by spaces. -/
def get_fen (g : Game) : List Char :=
  placementChapter g.chessboard ++ [' '] ++
  (match g.turn with | Color.White => ['w'] | Color.Black => ['b']) ++ [' '] ++
  castlingChapter g.chessboard ++ [' '] ++
  epChapter g.ep_square ++ [' '] ++
  natChars g.halfmove ++ [' '] ++
  natChars g.fullmove

/-- The piece placement (role and color per square) of a board: the part
of the position the round-trip property compares. -/
def boardPlacement (b : Board) : List (List (Option (PieceRole × Color))) :=
  b.map fun row => row.map fun cell => cell.map fun p => (p.role, p.color)

/-- Build a board by placing pieces on an empty 8 x 8 board. -/
def boardOf (l : List (Pos × Piece)) : Board :=
  l.foldl (fun b pp => writeSqD b pp.1 (some pp.2)) (List.replicate 8 emptyRank)

/-- The position of the self-check counterexample: black rook a8, black
knight b8, black king h8, white pawn a7, white king a1, white to move.
The pawn is pinned: after it leaves the a-file the rook a8 attacks the
king a1 along the open file. -/
def gamePin : Game :=
  { state := GameState.InProgress,
    chessboard := boardOf
      [([0, 0], ⟨PieceRole.Rook, Color.Black, false⟩),
       ([0, 1], ⟨PieceRole.Knight, Color.Black, true⟩),
       ([0, 7], ⟨PieceRole.King, Color.Black, true⟩),
       ([1, 0], ⟨PieceRole.Pawn, Color.White, true⟩),
       ([7, 0], ⟨PieceRole.King, Color.White, true⟩)],
    turn := Color.White, ep_square := none, halfmove := 0, fullmove := 1 }

/-- A checkmated game value (for exercising the terminal rejection). -/
def gameMated : Game := { gameNew with state := GameState.Checkmate }

/-- A small position: white king a1, white rook a2, black king h8, with
a nonzero halfmove clock. -/
def gameSmall : Game :=
  { state := GameState.InProgress,
    chessboard := boardOf
      [([7, 0], ⟨PieceRole.King, Color.White, true⟩),
       ([6, 0], ⟨PieceRole.Rook, Color.White, true⟩),
       ([0, 7], ⟨PieceRole.King, Color.Black, true⟩)],
    turn := Color.White, ep_square := none, halfmove := 5, fullmove := 1 }

/-- A position where white may castle kingside: king e1 and rook h1
unmoved, the squares between them empty, black king a8. -/
def gameCastle : Game :=
  { state := GameState.InProgress,
    chessboard := boardOf
      [([7, 4], ⟨PieceRole.King, Color.White, false⟩),
       ([7, 7], ⟨PieceRole.Rook, Color.White, false⟩),
       ([0, 0], ⟨PieceRole.King, Color.Black, true⟩)],
    turn := Color.White, ep_square := none, halfmove := 0, fullmove := 1 }

/-- A game with an empty board. -/
def gameEmpty : Game :=
  { state := GameState.InProgress, chessboard := List.replicate 8 emptyRank,
    turn := Color.White, ep_square := none, halfmove := 0, fullmove := 1 }

/-- The game component of a make_move result (used to name concrete
result positions in witnesses without spelling out the whole board). -/
def resultGame (g : Game) (f t : List Char) : Game :=
  ((make_move g f t).getD (none, g)).2

/-- Modelled from the amended claim wording, for comparison with the
source-derived available_moves: the on-board forward-diagonal squares of
a pawn that hold an enemy piece or equal the en passant square (and do
not hold a piece of its own color). -/
def pawnAttackSpec (pc : Piece) (b : Board) (ep : Option Pos) (pos : Pos) : List Pos :=
  let wb : Int := if pc.color = Color.White then -1 else 1
  [[px pos + wb, py pos - 1], [px pos + wb, py pos + 1]].filter fun d =>
    move_okay d &&
      (match readSqD b d with
       | some q => decide (q.color ≠ pc.color)
       | none => decide (ep = some d))

/-- Well-formed board: the 8 x 8 shape every board built by the program
has. -/
def WFBoard (b : Board) : Prop := b.length = 8 ∧ ∀ row ∈ b, row.length = 8

/-- Consecutive integer offsets, for reasoning about the offset loop. -/
def intRange (lo : Int) : Nat → List Int
  | 0 => []
  | n + 1 => lo :: intRange (lo + 1) n

/-- The conjunction of kingside-castling conditions named by the spec:
both squares strictly between the king on [r,4] and the rook square
[r,7] are empty, the king and that rook are unmoved and [r,7] indeed
holds a rook, and the king is in check neither on its start square nor
on the boards where it stands on the transit square [r,5] or the
destination square [r,6]. -/
def kingsideOK (b : Board) (pc : Piece) (r : Int) : Prop :=
  inCheckB b none pc.color = false ∧
  pc.has_moved = false ∧
  (∃ rk, readSqD b [r, 7] = some rk ∧ rk.role = PieceRole.Rook ∧
    rk.has_moved = false) ∧
  readSqD b [r, 5] = none ∧
  inCheckB (writeSqD (writeSqD b [r, 4] none) [r, 5]
    (some ⟨PieceRole.King, pc.color, true⟩)) none pc.color = false ∧
  readSqD b [r, 6] = none ∧
  inCheckB (writeSqD (writeSqD b [r, 4] none) [r, 6]
    (some ⟨PieceRole.King, pc.color, true⟩)) none pc.color = false


/-- C3: a Game whose state is Checkmate or Stalemate rejects every
make_move call with the reported failure None, and the game value
(board, turn, clocks, en passant square and state) is returned
unchanged: the source returns None before touching anything. -/
theorem terminal_state_rejects_moves (g : Game) (f t : List Char)
    (h : g.state = GameState.Checkmate ∨ g.state = GameState.Stalemate) :
    make_move g f t = some (none, g) := by
  unfold make_move
  rw [if_pos h]

/-- Witness for terminal_state_rejects_moves at a concrete mated game. -/
theorem terminal_state_rejects_moves_witness :
    make_move gameMated "e2".toList "e4".toList = some (none, gameMated) :=
  terminal_state_rejects_moves gameMated _ _ (Or.inl rfl)

/-- C6 names a behaviour the code does not have: decoding a position
description whose halfmove field is not a number reaches
parse::<u64>().unwrap() in the source and panics (modelled none); the
failure is not reported to the caller as an error result. -/
theorem load_fen_malformed_clock_panics :
    load_fen gameNew "8/8/8/8/8/8/8/8 w - - x 1".toList = none := by decide

/-- C1 fails on the code: in gamePin the white pawn a7 is pinned by the
rook a8 against the king a1, yet the promotion capture to b8 is in the
legal move set computed for the pawn, and make_move a7-b8q succeeds
(returning the new state Check) while leaving the king of the mover in
check.  The self-check filter simulates each candidate with a
two-character destination string, and for a promotion the silent move
application rejects that string without moving anything, so the filter
tests the unchanged position instead of the result of the promotion. -/
theorem promotion_self_check_bug :
    ([0, 1] ∈ (available_moves ⟨PieceRole.Pawn, Color.White, true⟩ gamePin [1, 0]
        false false).getD []) ∧
    ((make_move gamePin "a7".toList "b8q".toList).map fun r =>
        (r.1, in_check r.2 Color.White)) = some (some GameState.Check, true) := by
  decide

/-- C8: decoding the encoding of the starting position succeeds (returns
without panicking) and restores its piece placement, active color and
castling availability. -/
theorem fen_round_trip_start :
    ((load_fen gameNew (get_fen gameNew)).map fun r =>
      (r.1, boardPlacement r.2.chessboard, r.2.turn, castlingChapter r.2.chessboard))
    = some (none, boardPlacement gameNew.chessboard, gameNew.turn,
        castlingChapter gameNew.chessboard) := by decide

/-- C10: whenever load_fen returns (rather than panicking), the returned
value is None, on rejected malformed input and on a fully successful
decode alike, so the caller cannot tell the two apart from the returned
value. -/
theorem load_fen_always_returns_none (g : Game) (s : List Char)
    (r : Option GameState) (g' : Game) (h : load_fen g s = some (r, g')) :
    r = none := by
  simp only [load_fen] at h
  repeat' split at h
  all_goals simp_all

/-- Witness for load_fen_always_returns_none: the single-chapter input
consisting of one unknown letter is rejected with the board untouched. -/
theorem load_fen_always_returns_none_witness : (none : Option GameState) = none :=
  load_fen_always_returns_none gameNew "x".toList none gameNew (by decide)

theorem mem_ite_list {α : Type} {c : Prop} [Decidable c] {l1 l2 : List α} {m : α}
    (h : m ∈ if c then l1 else l2) : m ∈ l1 ∨ m ∈ l2 := by
  split at h
  · exact Or.inl h
  · exact Or.inr h

theorem slidePass_shape (b : Board) (pos : Pos) (off : Int)
    (st : List (Pos × Bool)) (m : Pos) :
    m ∈ (slidePass b pos off st).2 → ∃ a c, m = [a, c] := by
  induction st with
  | nil => intro h; simp [slidePass] at h
  | cons hd tl ih =>
    obtain ⟨d, alive⟩ := hd
    intro h
    simp only [slidePass] at h
    split at h
    · split at h
      · simp only [List.mem_cons] at h
        rcases h with h | h
        · exact ⟨_, _, h⟩
        · exact ih h
      · exact ih h
    · exact ih h

theorem slideAll_shape (b : Board) (pos : Pos) (offs : List Int)
    (st : List (Pos × Bool)) (m : Pos) :
    m ∈ slideAll b pos offs st → ∃ a c, m = [a, c] := by
  induction offs generalizing st with
  | nil => intro h; simp [slideAll] at h
  | cons off offs ih =>
    intro h
    simp only [slideAll, List.mem_append] at h
    rcases h with h | h
    · exact slidePass_shape b pos off st m h
    · exact ih _ h

theorem rawMoves_shape (pc : Piece) (b : Board) (ep : Option Pos) (pos : Pos)
    (atk : Bool) (m : Pos) (h : m ∈ rawMoves pc b ep pos atk) : ∃ a c, m = [a, c] := by
  obtain ⟨role, color, hmv⟩ := pc
  cases role
  all_goals simp only [rawMoves] at h
  case Rook => exact slideAll_shape _ _ _ _ _ h
  case Bishop => exact slideAll_shape _ _ _ _ _ h
  case Queen => exact slideAll_shape _ _ _ _ _ h
  case Knight =>
    simp only [List.mem_filter, List.mem_map] at h
    obtain ⟨⟨d, _, rfl⟩, _⟩ := h
    exact ⟨_, _, rfl⟩
  case King =>
    simp only [List.mem_filter, List.mem_map] at h
    obtain ⟨⟨d, _, rfl⟩, _⟩ := h
    exact ⟨_, _, rfl⟩
  case Pawn =>
    simp only [List.mem_append] at h
    rcases h with (h | h) | h
    · rcases mem_ite_list h with h | h
      · exact ⟨_, _, List.mem_singleton.mp h⟩
      · simp at h
    · rcases mem_ite_list h with h | h
      · exact ⟨_, _, List.mem_singleton.mp h⟩
      · simp at h
    · rcases mem_ite_list h with h | h
      · rw [List.singleton_append] at h
        rcases List.mem_cons.mp h with h | h
        · exact ⟨_, _, h⟩
        · rcases mem_ite_list h with h | h
          · exact ⟨_, _, List.mem_singleton.mp h⟩
          · simp at h
      · simp at h

theorem movesIgnoreCheck_shape (pc : Piece) (b : Board) (ep : Option Pos)
    (pos : Pos) (atk : Bool) (m : Pos) (h : m ∈ movesIgnoreCheck pc b ep pos atk) :
    ∃ a c, m = [a, c] :=
  rawMoves_shape pc b ep pos atk m (List.mem_of_mem_filter h)

/-- C9: when the board holds no king of the queried color anywhere, the
king finder leaves the empty vector behind, no attack square of any
enemy piece ever equals it, and in_check totally returns false with no
failure. -/
theorem no_king_in_check_false (g : Game) (c : Color)
    (h : ∀ p ∈ squaresRM, isKingSq g.chessboard c p = false) :
    in_check g c = false := by
  unfold in_check
  simp only [inCheckB]
  have hf : findKingPos g.chessboard c = [] := by
    unfold findKingPos
    rw [List.find?_eq_none.mpr]
    intro p hp
    simp [h p hp]
  rw [hf]
  rw [List.any_eq_false]
  intro p _
  cases hq : readSqD g.chessboard p with
  | none => simp
  | some q =>
    simp only []
    split
    · intro hc
      obtain ⟨a, c', habs⟩ :=
        movesIgnoreCheck_shape _ _ _ _ _ _ (List.mem_of_elem_eq_true hc)
      cases habs
    · simp

/-- Witness for no_king_in_check_false on the empty board. -/
theorem no_king_in_check_false_witness : in_check gameEmpty Color.White = false :=
  no_king_in_check_false gameEmpty Color.White (by decide)

theorem readSq_eq_some {b : Board} {p : Pos} {cell : Option Piece}
    (h : readSq b p = some cell) : readSqD b p = cell := by
  unfold readSq at h
  split at h <;> simp_all

theorem mutatePhase_halfmove (g : Game) (t : List Char) (pc : Piece)
    (fromPos toPos : Pos) (g1 : Game)
    (h : mutatePhase g t pc fromPos toPos = some (some g1)) :
    g1.halfmove = if pc.role = PieceRole.Pawn ∨ (readSqD g.chessboard toPos).isSome
      then 0 else g.halfmove + 1 := by
  simp only [mutatePhase] at h
  repeat' split at h
  all_goals (try cases h)
  all_goals simp_all [readSq_eq_some]

/-- C5: every make_move call rejected by a precondition (terminal state,
empty from square, wrong color, destination not in the legal set,
missing or invalid promotion choice) reports the failure as None and
leaves the Game completely unmutated: with skip_move_check = false the
source returns None only from rejection points that precede every board
write, so a returned None always carries the unchanged game. -/
theorem rejected_move_leaves_game_unchanged (g : Game) (f t : List Char) (g' : Game)
    (h : make_move g f t = some (none, g')) : g' = g := by
  simp only [make_move] at h
  repeat' split at h
  all_goals simp_all

/-- Witness for rejected_move_leaves_game_unchanged: moving the black
rook a8 while it is the turn of white is rejected with the game
unchanged. -/
theorem rejected_move_leaves_game_unchanged_witness :
    ((make_move gameNew "a8".toList "a7".toList).getD (none, gameNew)).2 = gameNew :=
  rejected_move_leaves_game_unchanged gameNew "a8".toList "a7".toList
    (((make_move gameNew "a8".toList "a7".toList).getD (none, gameNew)).2) (by decide)

theorem advanceGame_halfmove (g2 : Game) (hm : Bool) :
    (advanceGame g2 hm).halfmove = g2.halfmove := by
  unfold advanceGame
  split <;> rfl

theorem statusGame_halfmove (g1 : Game) : (statusGame g1).halfmove = g1.halfmove := rfl

/-- C7: after every successfully applied move the halfmove clock is 0
when the moved piece is a pawn (promotions included) or the destination
square was occupied (a capture), and the old value plus one otherwise. -/
theorem halfmove_clock_update (g : Game) (f t : List Char) (st : GameState) (g' : Game)
    (fp tp : Pos) (hf : parseSq f = some fp) (ht : parseSq t = some tp)
    (h : make_move g f t = some (some st, g')) :
    g'.halfmove =
      if ((readSqD g.chessboard fp).any fun q => q.role == PieceRole.Pawn)
          ∨ (readSqD g.chessboard tp).isSome then 0
      else g.halfmove + 1 := by
  simp only [make_move, hf, ht] at h
  repeat' split at h
  all_goals (try cases h)
  all_goals try simp_all [readSq_eq_some, advanceGame_halfmove, statusGame_halfmove]
  all_goals (apply mutatePhase_halfmove g t _ fp tp _; assumption)

/-- Witness for halfmove_clock_update: the quiet rook move a2-b2 in
gameSmall raises the halfmove clock from 5 to 6. -/
theorem halfmove_clock_update_witness :
    (resultGame gameSmall "a2".toList "b2".toList).halfmove = 6 := by
  have hres := halfmove_clock_update gameSmall "a2".toList "b2".toList
    GameState.InProgress (resultGame gameSmall "a2".toList "b2".toList)
    [6, 0] [6, 1] (by decide) (by decide) (by decide)
  rw [hres]
  decide

theorem available_moves_ignore_check (pc : Piece) (g : Game) (pos : Pos) (atk : Bool) :
    available_moves pc g pos atk true
      = some (movesIgnoreCheck pc g.chessboard g.ep_square pos atk) := by
  unfold available_moves movesIgnoreCheck
  simp

theorem pawn_diag_filter (b : Board) (pc : Piece) (ep : Option Pos) (dd : Pos) :
    (if move_okay dd ∧ ((readSqD b dd).isSome ∨ ep = some dd) then [dd] else []).filter
        (keepSquare b pc)
      = if (move_okay dd &&
          (match readSqD b dd with
           | some q => decide (q.color ≠ pc.color)
           | none => decide (ep = some dd))) = true then [dd] else [] := by
  cases hc : readSqD b dd with
  | none =>
    by_cases hm : move_okay dd
    · by_cases hep : ep = some dd
      · simp [hm, hep, keepSquare, hc]
      · simp [hm, hep, keepSquare, hc]
    · simp [hm]
  | some q =>
    by_cases hm : move_okay dd
    · by_cases hq : q.color = pc.color
      · simp [hm, hq, keepSquare, hc, List.filter_cons]
      · simp [hm, hq, keepSquare, hc, List.filter_cons]
    · simp [hm]

theorem movesIgnoreCheck_pawn (pc : Piece) (b : Board) (ep : Option Pos) (pos : Pos)
    (h : pc.role = PieceRole.Pawn) :
    movesIgnoreCheck pc b ep pos true = pawnAttackSpec pc b ep pos := by
  obtain ⟨role, color, hmv⟩ := pc
  simp only [Piece.role] at h
  cases h
  unfold movesIgnoreCheck rawMoves pawnAttackSpec
  simp only [List.filter_append, List.filter_cons, List.filter_nil]
  rw [pawn_diag_filter, pawn_diag_filter]
  simp only [not_true, false_and, if_neg, List.append_nil, List.filter_nil]
  split <;> split <;> simp_all

theorem movesIgnoreCheck_pawn_only_attack (pc : Piece) (b : Board) (ep : Option Pos)
    (pos : Pos) (h : pc.role = PieceRole.Pawn) :
    (movesIgnoreCheck pc b ep pos false).filter (fun m => decide (py m ≠ py pos))
      = movesIgnoreCheck pc b ep pos true := by
  obtain ⟨role, color, hmv⟩ := pc
  simp only [Piece.role] at h
  cases h
  have h1 : (py pos - 1 : Int) ≠ py pos := by omega
  have h2 : (py pos + 1 : Int) ≠ py pos := by omega
  unfold movesIgnoreCheck rawMoves
  simp only [not_true, false_and, if_neg, List.append_nil, List.filter_append,
    List.filter_filter]
  have e1 : ∀ (wb : Int) (cnd : Prop) [Decidable cnd],
      (if cnd then [[px pos + wb, py pos - 1]] else []).filter
          (fun a => decide (py a ≠ py pos) &&
            keepSquare b ⟨PieceRole.Pawn, color, hmv⟩ a)
        = (if cnd then [[px pos + wb, py pos - 1]] else []).filter
            (keepSquare b ⟨PieceRole.Pawn, color, hmv⟩) := by
    intro wb cnd inst
    refine List.filter_congr fun x hx => ?_
    rcases mem_ite_list hx with hx | hx
    · rw [List.mem_singleton] at hx
      subst hx
      have hpy : py [px pos + wb, py pos - 1] = py pos - 1 := rfl
      simp [hpy, h1]
    · simp at hx
  have e2 : ∀ (wb : Int) (cnd : Prop) [Decidable cnd],
      (if cnd then [[px pos + wb, py pos + 1]] else []).filter
          (fun a => decide (py a ≠ py pos) &&
            keepSquare b ⟨PieceRole.Pawn, color, hmv⟩ a)
        = (if cnd then [[px pos + wb, py pos + 1]] else []).filter
            (keepSquare b ⟨PieceRole.Pawn, color, hmv⟩) := by
    intro wb cnd inst
    refine List.filter_congr fun x hx => ?_
    rcases mem_ite_list hx with hx | hx
    · rw [List.mem_singleton] at hx
      subst hx
      have hpy : py [px pos + wb, py pos + 1] = py pos + 1 := rfl
      simp [hpy, h2]
    · simp at hx
  rw [e1, e2]
  have e3 : ∀ (wb wb2 : Int) (cnd cnd2 : Prop) [Decidable cnd] [Decidable cnd2],
      (if cnd then [[px pos + wb, py pos]] ++
          (if cnd2 then [[px pos + wb2, py pos]] else []) else []).filter
          (fun a => decide (py a ≠ py pos) &&
            keepSquare b ⟨PieceRole.Pawn, color, hmv⟩ a) = [] := by
    intro wb wb2 cnd cnd2 inst inst2
    rw [List.filter_eq_nil_iff]
    intro a ha
    rcases mem_ite_list ha with ha | ha
    · rw [List.singleton_append, List.mem_cons] at ha
      rcases ha with ha | ha
      · subst ha
        simp
        exact fun hc => absurd rfl hc
      · rcases mem_ite_list ha with ha | ha
        · rw [List.mem_singleton] at ha
          subst ha
          simp
          exact fun hc => absurd rfl hc
        · simp at ha
    · simp at ha
  rw [e3]
  simp

/-- C4 fails as stated: the white pawn e2 of the starting position
threatens its on-board forward-diagonal squares d3 and f3, yet
attack-only generation returns the empty set, because the source pushes
a diagonal only when it is occupied or equals the en passant square. -/
theorem pawn_attack_claim_counterexample :
    (available_moves ⟨PieceRole.Pawn, Color.White, false⟩ gameNew [6, 4] true true)
      = some [] ∧
    ([5, 3] ∉ (available_moves ⟨PieceRole.Pawn, Color.White, false⟩ gameNew [6, 4]
        true true).getD []) := by
  decide

/-- C4 amended: for a pawn, attack-only generation returns exactly the
on-board forward-diagonal squares that hold an enemy piece or equal the
en passant square (and do not hold a piece of its own color), and
relative to normal generation in the same ignore-check mode exactly the
forward same-column advances are suppressed. -/
theorem pawn_attack_moves_amended (pc : Piece) (g : Game) (pos : Pos)
    (h : pc.role = PieceRole.Pawn) :
    available_moves pc g pos true true
      = some (pawnAttackSpec pc g.chessboard g.ep_square pos) ∧
    (available_moves pc g pos true true).getD []
      = ((available_moves pc g pos false true).getD []).filter
          fun m => decide (py m ≠ py pos) := by
  constructor
  · rw [available_moves_ignore_check,
      movesIgnoreCheck_pawn pc g.chessboard g.ep_square pos h]
  · rw [available_moves_ignore_check, available_moves_ignore_check]
    simp only [Option.getD_some]
    exact (movesIgnoreCheck_pawn_only_attack pc g.chessboard g.ep_square pos h).symm

/-- Witness for pawn_attack_moves_amended at the starting-position pawn
e2 (both diagonals empty, no en passant square, so the set is empty). -/
theorem pawn_attack_moves_amended_witness :
    available_moves ⟨PieceRole.Pawn, Color.White, false⟩ gameNew [6, 4] true true
      = some (pawnAttackSpec ⟨PieceRole.Pawn, Color.White, false⟩ gameNew.chessboard
          gameNew.ep_square [6, 4]) :=
  (pawn_attack_moves_amended ⟨PieceRole.Pawn, Color.White, false⟩ gameNew [6, 4] rfl).1


theorem getD_set_self {α : Type} (l : List α) (i : Nat) (a d : α) (h : i < l.length) :
    (l.set i a).getD i d = a := by
  rw [List.getD_eq_getElem?_getD, List.getElem?_set_eq_of_lt a h]
  rfl

theorem getD_set_other {α : Type} (l : List α) (i j : Nat) (a d : α) (h : i ≠ j) :
    (l.set i a).getD j d = l.getD j d := by
  rw [List.getD_eq_getElem?_getD, List.getD_eq_getElem?_getD, List.getElem?_set_ne h]


theorem WFBoard_row (b : Board) (hwf : WFBoard b) (i : Nat) (hi : i < 8) :
    (b.getD i []).length = 8 := by
  have hlen : i < b.length := by rw [hwf.1]; exact hi
  apply hwf.2
  rw [List.getD_eq_getElem b [] hlen]
  exact List.getElem_mem hlen

theorem move_okay_coords {p : Pos} (hp : move_okay p = true) :
    0 ≤ px p ∧ px p ≤ 7 ∧ 0 ≤ py p ∧ py p ≤ 7 := by
  simpa [move_okay] using hp

theorem readSqD_writeSqD (b : Board) (p q : Pos) (v : Option Piece)
    (hwf : WFBoard b) (hp : move_okay p = true) :
    readSqD (writeSqD b p v) q =
      if px q = px p ∧ py q = py p then v else readSqD b q := by
  have hp' := move_okay_coords hp
  by_cases hq : move_okay q = true
  · have hq' := move_okay_coords hq
    unfold readSqD writeSqD
    rw [if_pos hq, if_pos hq]
    have hbl : b.length = 8 := hwf.1
    by_cases hx : px q = px p
    · by_cases hy : py q = py p
      · rw [if_pos ⟨hx, hy⟩, hx, hy]
        rw [getD_set_self _ _ _ _ (by omega : (px p).toNat < b.length)]
        have hrow := WFBoard_row b hwf (px p).toNat (by omega)
        exact getD_set_self _ _ _ _ (by omega)
      · rw [if_neg (by tauto), hx]
        rw [getD_set_self _ _ _ _ (by omega : (px p).toNat < b.length)]
        exact getD_set_other _ _ _ _ _ (by omega : (py p).toNat ≠ (py q).toNat)
    · rw [if_neg (by tauto)]
      rw [getD_set_other _ _ _ _ _ (by omega : (px p).toNat ≠ (px q).toNat)]
  · unfold readSqD
    rw [if_neg hq, if_neg hq]
    rw [if_neg ?_]
    intro hcon
    apply hq
    unfold move_okay at hp ⊢
    rw [hcon.1, hcon.2]
    exact hp

theorem mem_squaresRM_iff (p : Pos) :
    p ∈ squaresRM ↔ ∃ a b2 : Int, p = [a, b2] ∧ 0 ≤ a ∧ a ≤ 7 ∧ 0 ≤ b2 ∧ b2 ≤ 7 := by
  constructor
  · intro h
    obtain ⟨r, hr, h2⟩ := List.mem_flatMap.mp h
    obtain ⟨c, hc, heq⟩ := List.mem_map.mp h2
    rw [List.mem_range] at hr hc
    rw [Int.ofNat_eq_coe, Int.ofNat_eq_coe] at heq
    exact ⟨r, c, heq.symm, by omega, by omega, by omega, by omega⟩
  · rintro ⟨a, b2, rfl, h1, h2, h3, h4⟩
    apply List.mem_flatMap.mpr
    refine ⟨a.toNat, List.mem_range.mpr (by omega), ?_⟩
    apply List.mem_map.mpr
    refine ⟨b2.toNat, List.mem_range.mpr (by omega), ?_⟩
    simp only [List.cons.injEq, and_true, Int.ofNat_eq_coe]
    exact ⟨by omega, by omega⟩

theorem WFBoard_writeSqD (b : Board) (p : Pos) (v : Option Piece)
    (hwf : WFBoard b) (hp : move_okay p = true) : WFBoard (writeSqD b p v) := by
  have hp' := move_okay_coords hp
  have hbl : b.length = 8 := hwf.1
  unfold writeSqD WFBoard
  constructor
  · rw [List.length_set]; exact hwf.1
  · intro row hrow
    rcases List.mem_or_eq_of_mem_set hrow with h | h
    · exact hwf.2 row h
    · rw [h, List.length_set]
      exact WFBoard_row b hwf (px p).toNat (by omega)

theorem findKingPos_unique (b : Board) (c : Color) (p0 : Pos)
    (hmem : p0 ∈ squaresRM) (hp0 : isKingSq b c p0 = true)
    (huniq : ∀ p ∈ squaresRM, isKingSq b c p = true → p = p0) :
    findKingPos b c = p0 := by
  unfold findKingPos
  have hsome : (squaresRM.find? (isKingSq b c)).isSome := by
    rw [List.find?_isSome]
    exact ⟨p0, hmem, hp0⟩
  obtain ⟨x, hx⟩ := Option.isSome_iff_exists.mp hsome
  rw [hx]
  exact huniq x (List.mem_of_find?_eq_some hx) (List.find?_some hx)


theorem intRange_seven : intRange 1 7 = [1, 2, 3, 4, 5, 6, 7] := rfl

theorem slidePass_snd_mem (b : Board) (pos : Pos) (off : Int)
    (st : List (Pos × Bool)) (t : Pos) :
    t ∈ (slidePass b pos off st).2 ↔
      ∃ pr ∈ st, pr.2 = true ∧ t = step pos pr.1 off ∧ move_okay t = true := by
  induction st with
  | nil => simp [slidePass]
  | cons hd tl ih =>
    obtain ⟨d, alive⟩ := hd
    simp only [slidePass]
    by_cases ha : alive
    · subst ha
      by_cases hok : move_okay (step pos d off) = true
      · rw [if_pos rfl, if_pos hok]
        simp only [List.mem_cons, List.mem_cons (a := (d, true))]
        constructor
        · rintro (rfl | h)
          · exact ⟨(d, true), Or.inl rfl, rfl, rfl, hok⟩
          · obtain ⟨pr, hpr, hh⟩ := ih.mp h
            exact ⟨pr, Or.inr hpr, hh⟩
        · rintro ⟨pr, hpr | hpr, h2, h3, h4⟩
          · cases hpr
            exact Or.inl h3
          · exact Or.inr (ih.mpr ⟨pr, hpr, h2, h3, h4⟩)
      · rw [if_pos rfl, if_neg hok]
        simp only []
        rw [ih]
        constructor
        · rintro ⟨pr, hpr, hh⟩
          exact ⟨pr, List.mem_cons_of_mem _ hpr, hh⟩
        · rintro ⟨pr, hpr, h2, h3, h4⟩
          rcases List.mem_cons.mp hpr with rfl | hpr
          · rw [h3] at h4
            exact absurd h4 hok
          · exact ⟨pr, hpr, h2, h3, h4⟩
    · rw [if_neg ha]
      simp only []
      rw [ih]
      constructor
      · rintro ⟨pr, hpr, hh⟩
        exact ⟨pr, List.mem_cons_of_mem _ hpr, hh⟩
      · rintro ⟨pr, hpr, h2, h3, h4⟩
        rcases List.mem_cons.mp hpr with rfl | hpr
        · exact absurd h2 ha
        · exact ⟨pr, hpr, h2, h3, h4⟩

theorem slidePass_fst (b : Board) (pos : Pos) (off : Int)
    (st : List (Pos × Bool)) :
    (slidePass b pos off st).1 = st.map fun pr =>
      (pr.1, pr.2 && !(move_okay (step pos pr.1 off) &&
        (readSqD b (step pos pr.1 off)).isSome)) := by
  induction st with
  | nil => simp [slidePass]
  | cons hd tl ih =>
    obtain ⟨d, alive⟩ := hd
    simp only [slidePass, List.map_cons]
    by_cases ha : alive
    · subst ha
      by_cases hok : move_okay (step pos d off) = true
      · rw [if_pos rfl, if_pos hok]
        simp only [ih, hok]
        simp
      · rw [if_pos rfl, if_neg hok]
        simp only [ih]
        simp only [Bool.not_eq_true] at hok
        simp [hok]
    · simp only [Bool.not_eq_true] at ha
      subst ha
      rw [if_neg (by simp)]
      simp [ih]

theorem mem_slideAll_iff (b : Board) (pos : Pos) (n : Nat) :
    ∀ (lo : Int) (st : List (Pos × Bool)) (t : Pos),
    t ∈ slideAll b pos (intRange lo n) st ↔
      ∃ pr ∈ st, pr.2 = true ∧ ∃ k : Int, lo ≤ k ∧ k < lo + n ∧ t = step pos pr.1 k ∧
        move_okay t = true ∧
        ∀ j : Int, lo ≤ j → j < k →
          ¬(move_okay (step pos pr.1 j) = true ∧
            (readSqD b (step pos pr.1 j)).isSome = true) := by
  induction n with
  | zero =>
    intro lo st t
    constructor
    · intro h
      simp [intRange, slideAll] at h
    · rintro ⟨pr, hpr, h2, k, hk1, hk2, h3⟩
      exfalso
      omega
  | succ n ih =>
    intro lo st t
    rw [show intRange lo (n + 1) = lo :: intRange (lo + 1) n from rfl]
    simp only [slideAll]
    rw [List.mem_append, slidePass_snd_mem, slidePass_fst, ih]
    constructor
    · rintro (⟨pr, hpr, h2, h3, h4⟩ | ⟨pr', hpr', h2', k, hk1, hk2, h3, h4, h5⟩)
      · exact ⟨pr, hpr, h2, lo, le_refl lo, by omega, h3, h4,
          fun j hj1 hj2 => by omega⟩
      · obtain ⟨pr, hpr, rfl⟩ := List.mem_map.mp hpr'
        simp only [Bool.and_eq_true, Bool.not_eq_true'] at h2'
        obtain ⟨h2a, h2b⟩ := h2'
        refine ⟨pr, hpr, h2a, k, by omega, by push_cast at hk2 ⊢; omega, h3, h4, ?_⟩
        intro j hj1 hj2
        by_cases hjlo : j = lo
        · subst hjlo
          rintro ⟨ho, hocc⟩
          rw [ho, hocc] at h2b
          simp at h2b
        · exact h5 j (by omega) hj2
    · rintro ⟨pr, hpr, h2, k, hk1, hk2, h3, h4, h5⟩
      by_cases hklo : k = lo
      · subst hklo
        exact Or.inl ⟨pr, hpr, h2, h3, h4⟩
      · have halive : (pr.2 && !(move_okay (step pos pr.1 lo) &&
            (readSqD b (step pos pr.1 lo)).isSome)) = true := by
          simp only [Bool.and_eq_true, Bool.not_eq_true']
          refine ⟨h2, ?_⟩
          have hno := h5 lo (le_refl lo) (by omega)
          by_cases ho : move_okay (step pos pr.1 lo) = true
          · by_cases hocc : (readSqD b (step pos pr.1 lo)).isSome = true
            · exact absurd ⟨ho, hocc⟩ hno
            · simp only [Bool.not_eq_true] at hocc
              simp [hocc]
          · simp only [Bool.not_eq_true] at ho
            simp [ho]
        refine Or.inr ⟨(pr.1, pr.2 && !(move_okay (step pos pr.1 lo) &&
            (readSqD b (step pos pr.1 lo)).isSome)),
          List.mem_map.mpr ⟨pr, hpr, rfl⟩, halive, k, by omega,
          by push_cast at hk2 ⊢; omega, h3, h4,
          fun j hj1 hj2 => h5 j (by omega) hj2⟩

theorem mem_slide_iff (b : Board) (pos : Pos) (dirs : List Pos) (t : Pos) :
    t ∈ slide b pos dirs ↔
      ∃ d ∈ dirs, ∃ k : Int, 1 ≤ k ∧ k ≤ 7 ∧ t = step pos d k ∧ move_okay t = true ∧
        ∀ j : Int, 1 ≤ j → j < k →
          ¬(move_okay (step pos d j) = true ∧
            (readSqD b (step pos d j)).isSome = true) := by
  unfold slide
  rw [← intRange_seven, mem_slideAll_iff]
  constructor
  · rintro ⟨pr, hpr, h2, k, hk1, hk2, hh⟩
    obtain ⟨d, hd, rfl⟩ := List.mem_map.mp hpr
    exact ⟨d, hd, k, hk1, by push_cast at hk2; omega, hh⟩
  · rintro ⟨d, hd, k, hk1, hk7, hh⟩
    exact ⟨(d, true), List.mem_map.mpr ⟨d, hd, rfl⟩, rfl, k, hk1,
      by push_cast; omega, hh⟩

theorem readSqD_coords (b : Board) (q : Pos) : readSqD b q = readSqD b [px q, py q] := rfl

theorem slide_attack_transfer (bA bB : Board) (p : Pos) (r : Int) (dirs : List Pos)
    (hpys : ∀ d ∈ dirs, py d = 0 ∨ py d = 1 ∨ py d = -1)
    (hpb : 0 ≤ py p ∧ py p ≤ 7)
    (hAgree : ∀ q : Pos, ¬(px q = r ∧ py q = 5) → ¬(px q = r ∧ py q = 7) →
        readSqD bA q = readSqD bB q)
    (hA5 : (readSqD bA [r, 5]).isSome = true)
    (hmem : [r, 6] ∈ slide bA p dirs) :
    [r, 6] ∈ slide bB p dirs := by
  rw [mem_slide_iff] at hmem ⊢
  obtain ⟨d, hd, k, hk1, hk7, hstep, hok, hpath⟩ := hmem
  refine ⟨d, hd, k, hk1, hk7, hstep, hok, ?_⟩
  intro j hj1 hjk
  rintro ⟨hokj, hoccj⟩
  by_cases h5 : px (step p d j) = r ∧ py (step p d j) = 5
  · apply hpath j hj1 hjk
    refine ⟨hokj, ?_⟩
    rw [readSqD_coords bA (step p d j), h5.1, h5.2]
    exact hA5
  · by_cases h7 : px (step p d j) = r ∧ py (step p d j) = 7
    · have e2 : py p + j * py d = 7 := h7.2
      have e4 : (6 : Int) = py p + k * py d := congrArg py hstep
      rcases hpys d hd with h | h | h <;>
        rw [h] at e2 e4 <;> ring_nf at e2 e4 <;> omega
    · apply hpath j hj1 hjk
      refine ⟨hokj, ?_⟩
      rw [hAgree _ h5 h7]
      exact hoccj

theorem mem_ite_cond {α : Type} {c : Prop} [Decidable c] {l : List α} {m : α}
    (h : m ∈ if c then l else []) : c ∧ m ∈ l := by
  split at h
  · exact ⟨‹c›, h⟩
  · exact absurd h (List.not_mem_nil m)

theorem attack_transfer (bA bB : Board) (q : Piece) (p : Pos) (r : Int)
    (hpb : move_okay p = true)
    (hAgree : ∀ x : Pos, ¬(px x = r ∧ py x = 5) → ¬(px x = r ∧ py x = 7) →
        readSqD bA x = readSqD bB x)
    (hA5 : (readSqD bA [r, 5]).isSome = true)
    (hmem : [r, 6] ∈ movesIgnoreCheck q bA none p true) :
    [r, 6] ∈ movesIgnoreCheck q bB none p true := by
  have hne5 : ¬(px [r, 6] = r ∧ py [r, 6] = 5) := by
    rintro ⟨_, hx⟩
    have hx6 : (6 : Int) = 5 := hx
    exact absurd hx6 (by decide)
  have hne7 : ¬(px [r, 6] = r ∧ py [r, 6] = 7) := by
    rintro ⟨_, hx⟩
    have hx6 : (6 : Int) = 7 := hx
    exact absurd hx6 (by decide)
  have h6A : readSqD bA [r, 6] = readSqD bB [r, 6] := hAgree _ hne5 hne7
  rw [movesIgnoreCheck, List.mem_filter] at hmem ⊢
  obtain ⟨hraw, hkeep⟩ := hmem
  refine ⟨?_, ?_⟩
  · obtain ⟨role, qc, qm⟩ := q
    cases role
    case Rook =>
      simp only [rawMoves] at hraw ⊢
      exact slide_attack_transfer bA bB p r rookDirs (by decide)
        ⟨(move_okay_coords hpb).2.2.1, (move_okay_coords hpb).2.2.2⟩ hAgree hA5 hraw
    case Bishop =>
      simp only [rawMoves] at hraw ⊢
      exact slide_attack_transfer bA bB p r bishopDirs (by decide)
        ⟨(move_okay_coords hpb).2.2.1, (move_okay_coords hpb).2.2.2⟩ hAgree hA5 hraw
    case Queen =>
      simp only [rawMoves] at hraw ⊢
      exact slide_attack_transfer bA bB p r queenDirs (by decide)
        ⟨(move_okay_coords hpb).2.2.1, (move_okay_coords hpb).2.2.2⟩ hAgree hA5 hraw
    case Knight =>
      simp only [rawMoves] at hraw ⊢
      exact hraw
    case King =>
      simp only [rawMoves] at hraw ⊢
      exact hraw
    case Pawn =>
      simp only [rawMoves] at hraw ⊢
      rw [List.mem_append, List.mem_append] at hraw ⊢
      rcases hraw with (h | h) | h
      · obtain ⟨⟨hok, hcond⟩, heq⟩ := mem_ite_cond h
        rw [List.mem_singleton] at heq
        left; left
        rw [if_pos ?_]
        · rw [heq]; exact List.mem_singleton.mpr rfl
        · refine ⟨hok, Or.inl ?_⟩
          rcases hcond with hocc | hep
          · rw [← heq, ← h6A, heq]
            exact hocc
          · exact absurd hep (by simp)
      · obtain ⟨⟨hok, hcond⟩, heq⟩ := mem_ite_cond h
        rw [List.mem_singleton] at heq
        left; right
        rw [if_pos ?_]
        · rw [heq]; exact List.mem_singleton.mpr rfl
        · refine ⟨hok, Or.inl ?_⟩
          rcases hcond with hocc | hep
          · rw [← heq, ← h6A, heq]
            exact hocc
          · exact absurd hep (by simp)
      · obtain ⟨⟨hcon, _⟩, _⟩ := mem_ite_cond h
        exact absurd trivial hcon
  · unfold keepSquare at hkeep ⊢
    rw [← h6A]
    exact hkeep

theorem px_pair (a bb : Int) : px [a, bb] = a := rfl

theorem py_pair (a bb : Int) : py [a, bb] = bb := rfl

theorem move_okay_rc (a bb : Int) (h1 : 0 ≤ a) (h2 : a ≤ 7) (h3 : 0 ≤ bb)
    (h4 : bb ≤ 7) : move_okay [a, bb] = true := by
  unfold move_okay
  rw [decide_eq_true_eq]
  exact ⟨h1, h2, h3, h4⟩

theorem two_write_pointwise (b : Board) (p1 p2 : Pos) (v1 v2 : Option Piece) (q : Pos)
    (hwf : WFBoard b) (h1 : move_okay p1 = true) (h2 : move_okay p2 = true) :
    readSqD (writeSqD (writeSqD b p1 v1) p2 v2) q =
      if px q = px p2 ∧ py q = py p2 then v2
      else if px q = px p1 ∧ py q = py p1 then v1
      else readSqD b q := by
  rw [readSqD_writeSqD _ _ _ _ (WFBoard_writeSqD b p1 v1 hwf h1) h2]
  by_cases hc : px q = px p2 ∧ py q = py p2
  · rw [if_pos hc, if_pos hc]
  · rw [if_neg hc, if_neg hc]
    exact readSqD_writeSqD b p1 q v1 hwf h1

theorem four_write_pointwise (b : Board) (p1 p2 p3 p4 : Pos)
    (v1 v2 v3 v4 : Option Piece) (q : Pos) (hwf : WFBoard b)
    (h1 : move_okay p1 = true) (h2 : move_okay p2 = true)
    (h3 : move_okay p3 = true) (h4 : move_okay p4 = true) :
    readSqD (writeSqD (writeSqD (writeSqD (writeSqD b p1 v1) p2 v2) p3 v3) p4 v4) q =
      if px q = px p4 ∧ py q = py p4 then v4
      else if px q = px p3 ∧ py q = py p3 then v3
      else if px q = px p2 ∧ py q = py p2 then v2
      else if px q = px p1 ∧ py q = py p1 then v1
      else readSqD b q := by
  have w1 := WFBoard_writeSqD b p1 v1 hwf h1
  have w2 := WFBoard_writeSqD _ p2 v2 w1 h2
  have w3 := WFBoard_writeSqD _ p3 v3 w2 h3
  rw [readSqD_writeSqD _ _ _ _ w3 h4]
  by_cases hc4 : px q = px p4 ∧ py q = py p4
  · rw [if_pos hc4, if_pos hc4]
  · rw [if_neg hc4, if_neg hc4]
    rw [readSqD_writeSqD _ _ _ _ w2 h3]
    by_cases hc3 : px q = px p3 ∧ py q = py p3
    · rw [if_pos hc3, if_pos hc3]
    · rw [if_neg hc3, if_neg hc3]
      exact two_write_pointwise b p1 p2 v1 v2 q hwf h1 h2

theorem castle_final_check (b : Board) (c : Color) (r : Int) (rk : Piece)
    (hwf : WFBoard b) (hr0 : 0 ≤ r) (hr7 : r ≤ 7)
    (hking : readSqD b [r, 4] = some ⟨PieceRole.King, c, false⟩)
    (huniq : ∀ p ∈ squaresRM, isKingSq b c p = true → p = [r, 4])
    (hE5 : readSqD b [r, 5] = none)
    (hE6 : readSqD b [r, 6] = none)
    (hR : readSqD b [r, 7] = some rk) (hrkrole : rk.role = PieceRole.Rook)
    (hC2 : inCheckB (writeSqD (writeSqD b [r, 4] none) [r, 6]
        (some ⟨PieceRole.King, c, true⟩)) none c = false) :
    inCheckB (writeSqD (writeSqD (writeSqD (writeSqD b [r, 6]
        (some ⟨PieceRole.King, c, true⟩)) [r, 4] none) [r, 5]
        (some ⟨PieceRole.Rook, c, true⟩)) [r, 7] none) none c = false := by
  have hok4 : move_okay [r, 4] = true := move_okay_rc r 4 hr0 hr7 (by omega) (by omega)
  have hok5 : move_okay [r, 5] = true := move_okay_rc r 5 hr0 hr7 (by omega) (by omega)
  have hok6 : move_okay [r, 6] = true := move_okay_rc r 6 hr0 hr7 (by omega) (by omega)
  have hok7 : move_okay [r, 7] = true := move_okay_rc r 7 hr0 hr7 (by omega) (by omega)
  have hB2 : ∀ q : Pos,
      readSqD (writeSqD (writeSqD b [r, 4] none) [r, 6]
        (some ⟨PieceRole.King, c, true⟩)) q =
      if px q = r ∧ py q = 6 then some ⟨PieceRole.King, c, true⟩
      else if px q = r ∧ py q = 4 then none
      else readSqD b q := by
    intro q
    have := two_write_pointwise b [r, 4] [r, 6] none
      (some ⟨PieceRole.King, c, true⟩) q hwf hok4 hok6
    rw [this]
    simp only [px_pair, py_pair]
  have hBA : ∀ q : Pos,
      readSqD (writeSqD (writeSqD (writeSqD (writeSqD b [r, 6]
        (some ⟨PieceRole.King, c, true⟩)) [r, 4] none) [r, 5]
        (some ⟨PieceRole.Rook, c, true⟩)) [r, 7] none) q =
      if px q = r ∧ py q = 7 then none
      else if px q = r ∧ py q = 5 then some ⟨PieceRole.Rook, c, true⟩
      else if px q = r ∧ py q = 4 then none
      else if px q = r ∧ py q = 6 then some ⟨PieceRole.King, c, true⟩
      else readSqD b q := by
    intro q
    have := four_write_pointwise b [r, 6] [r, 4] [r, 5] [r, 7]
      (some ⟨PieceRole.King, c, true⟩) none (some ⟨PieceRole.Rook, c, true⟩) none
      q hwf hok6 hok4 hok5 hok7
    rw [this]
    simp only [px_pair, py_pair]
  have hmem6 : ([r, 6] : Pos) ∈ squaresRM :=
    (mem_squaresRM_iff _).mpr ⟨r, 6, rfl, hr0, hr7, by omega, by omega⟩
  have hmem7 : ([r, 7] : Pos) ∈ squaresRM :=
    (mem_squaresRM_iff _).mpr ⟨r, 7, rfl, hr0, hr7, by omega, by omega⟩
  have kb2 : findKingPos (writeSqD (writeSqD b [r, 4] none) [r, 6]
      (some ⟨PieceRole.King, c, true⟩)) c = [r, 6] := by
    apply findKingPos_unique _ _ _ hmem6
    · unfold isKingSq
      rw [hB2 [r, 6]]
      simp [px_pair, py_pair]
    · intro p hp hk
      obtain ⟨a, b2, rfl, ha0, ha7, hb0, hb7⟩ := (mem_squaresRM_iff p).mp hp
      unfold isKingSq at hk
      rw [hB2 [a, b2]] at hk
      simp only [px_pair, py_pair] at hk
      by_cases h6 : a = r ∧ b2 = 6
      · rw [h6.1, h6.2]
      · rw [if_neg h6] at hk
        by_cases h4 : a = r ∧ b2 = 4
        · rw [if_pos h4] at hk
          cases hk
        · rw [if_neg h4] at hk
          have := huniq [a, b2] hp hk
          simp only [List.cons.injEq, and_true] at this
          exact absurd ⟨this.1, this.2⟩ h4
  have hcol : rk.color = c := by
    by_contra hcol
    have hattack : inCheckB (writeSqD (writeSqD b [r, 4] none) [r, 6]
        (some ⟨PieceRole.King, c, true⟩)) none c = true := by
      unfold inCheckB
      rw [kb2]
      rw [List.any_eq_true]
      refine ⟨[r, 7], hmem7, ?_⟩
      have h7v : readSqD (writeSqD (writeSqD b [r, 4] none) [r, 6]
          (some ⟨PieceRole.King, c, true⟩)) [r, 7] = some rk := by
        rw [hB2 [r, 7]]
        simp only [px_pair, py_pair]
        rw [if_neg (by omega), if_neg (by omega)]
        exact hR
      rw [h7v]
      simp only []
      rw [if_pos hcol]
      apply List.elem_eq_true_of_mem
      rw [movesIgnoreCheck, List.mem_filter]
      constructor
      · obtain ⟨rrole, rcol, rmv⟩ := rk
        simp only at hrkrole
        subst hrkrole
        simp only [rawMoves]
        rw [mem_slide_iff]
        refine ⟨[0, -1], by decide, 1, le_refl 1, by omega, ?_, hok6, ?_⟩
        · show ([r, 6] : Pos) = [px [r, 7] + 1 * px [0, -1], py [r, 7] + 1 * py [0, -1]]
          simp only [px_pair, py_pair]
          norm_num
        · intro j hj1 hj2
          omega
      · unfold keepSquare
        have h66 : readSqD (writeSqD (writeSqD b [r, 4] none) [r, 6]
            (some ⟨PieceRole.King, c, true⟩)) [r, 6]
            = some ⟨PieceRole.King, c, true⟩ := by
          rw [hB2 [r, 6]]
          simp [px_pair, py_pair]
        rw [h66]
        simpa using fun h => hcol h.symm
    rw [hattack] at hC2
    cases hC2
  have kAfter : findKingPos (writeSqD (writeSqD (writeSqD (writeSqD b [r, 6]
      (some ⟨PieceRole.King, c, true⟩)) [r, 4] none) [r, 5]
      (some ⟨PieceRole.Rook, c, true⟩)) [r, 7] none) c = [r, 6] := by
    apply findKingPos_unique _ _ _ hmem6
    · unfold isKingSq
      rw [hBA [r, 6]]
      simp [px_pair, py_pair]
    · intro p hp hk
      obtain ⟨a, bc, rfl, ha0, ha7, hb0, hb7⟩ := (mem_squaresRM_iff p).mp hp
      unfold isKingSq at hk
      rw [hBA [a, bc]] at hk
      simp only [px_pair, py_pair] at hk
      by_cases h7 : a = r ∧ bc = 7
      · rw [if_pos h7] at hk; cases hk
      · rw [if_neg h7] at hk
        by_cases h5 : a = r ∧ bc = 5
        · rw [if_pos h5] at hk
          simp at hk
        · rw [if_neg h5] at hk
          by_cases h4 : a = r ∧ bc = 4
          · rw [if_pos h4] at hk; cases hk
          · rw [if_neg h4] at hk
            by_cases h6 : a = r ∧ bc = 6
            · rw [h6.1, h6.2]
            · rw [if_neg h6] at hk
              have := huniq [a, bc] hp hk
              simp only [List.cons.injEq, and_true] at this
              exact absurd ⟨this.1, this.2⟩ h4
  by_contra hBad
  rw [Bool.not_eq_false] at hBad
  unfold inCheckB at hBad
  rw [kAfter] at hBad
  obtain ⟨p, hpmem, hfun⟩ := List.any_eq_true.mp hBad
  obtain ⟨a, bc, rfl, ha0, ha7, hb0, hb7⟩ := (mem_squaresRM_iff p).mp hpmem
  rw [hBA [a, bc]] at hfun
  simp only [px_pair, py_pair] at hfun
  by_cases h7 : a = r ∧ bc = 7
  · rw [if_pos h7] at hfun; cases hfun
  · rw [if_neg h7] at hfun
    by_cases h5 : a = r ∧ bc = 5
    · rw [if_pos h5] at hfun
      simp at hfun
    · rw [if_neg h5] at hfun
      by_cases h4 : a = r ∧ bc = 4
      · rw [if_pos h4] at hfun; cases hfun
      · rw [if_neg h4] at hfun
        by_cases h6 : a = r ∧ bc = 6
        · rw [if_pos h6] at hfun
          simp at hfun
        · rw [if_neg h6] at hfun
          rcases hq : readSqD b [a, bc] with _ | q
          · rw [hq] at hfun; cases hfun
          · rw [hq] at hfun
            simp only [] at hfun
            by_cases hqc : q.color = c
            · rw [if_neg (fun h => h hqc)] at hfun; cases hfun
            · rw [if_pos hqc] at hfun
              have hmemA : [r, 6] ∈ movesIgnoreCheck q
                  (writeSqD (writeSqD (writeSqD (writeSqD b [r, 6]
                    (some ⟨PieceRole.King, c, true⟩)) [r, 4] none) [r, 5]
                    (some ⟨PieceRole.Rook, c, true⟩)) [r, 7] none)
                  none [a, bc] true := List.mem_of_elem_eq_true hfun
              have hAgree : ∀ x : Pos, ¬(px x = r ∧ py x = 5) →
                  ¬(px x = r ∧ py x = 7) →
                  readSqD (writeSqD (writeSqD (writeSqD (writeSqD b [r, 6]
                    (some ⟨PieceRole.King, c, true⟩)) [r, 4] none) [r, 5]
                    (some ⟨PieceRole.Rook, c, true⟩)) [r, 7] none) x =
                  readSqD (writeSqD (writeSqD b [r, 4] none) [r, 6]
                    (some ⟨PieceRole.King, c, true⟩)) x := by
                intro x hx5 hx7
                rw [hBA x, hB2 x]
                rw [if_neg hx7, if_neg hx5]
                by_cases hx4 : px x = r ∧ py x = 4
                · have hx6 : ¬(px x = r ∧ py x = 6) := fun h => by
                    have := hx4.2; have := h.2; omega
                  rw [if_pos hx4, if_neg hx6, if_pos hx4]
                · rw [if_neg hx4]
                  by_cases hx6 : px x = r ∧ py x = 6
                  · rw [if_pos hx6, if_pos hx6]
                  · rw [if_neg hx6, if_neg hx6, if_neg hx4]
              have hA5 : (readSqD (writeSqD (writeSqD (writeSqD (writeSqD b [r, 6]
                  (some ⟨PieceRole.King, c, true⟩)) [r, 4] none) [r, 5]
                  (some ⟨PieceRole.Rook, c, true⟩)) [r, 7] none) [r, 5]).isSome
                  = true := by
                rw [hBA [r, 5]]
                rw [if_neg (fun h => absurd (show (5 : Int) = 7 from h.2) (by decide)),
                  if_pos ⟨rfl, rfl⟩]
                rfl
              have hokp : move_okay [a, bc] = true :=
                move_okay_rc a bc ha0 ha7 hb0 hb7
              have hmemB := attack_transfer _ _ q [a, bc] r hokp hAgree hA5 hmemA
              have hcheck2 : inCheckB (writeSqD (writeSqD b [r, 4] none) [r, 6]
                  (some ⟨PieceRole.King, c, true⟩)) none c = true := by
                unfold inCheckB
                rw [kb2]
                rw [List.any_eq_true]
                refine ⟨[a, bc], hpmem, ?_⟩
                have hq2 : readSqD (writeSqD (writeSqD b [r, 4] none) [r, 6]
                    (some ⟨PieceRole.King, c, true⟩)) [a, bc] = some q := by
                  rw [hB2 [a, bc]]
                  simp only [px_pair, py_pair]
                  rw [if_neg h6, if_neg h4, hq]
                rw [hq2]
                simp only []
                rw [if_pos hqc]
                exact List.elem_eq_true_of_mem hmemB
              rw [hcheck2] at hC2
              cases hC2

theorem readSq_ok (b : Board) (p : Pos) (h : move_okay p = true) :
    readSq b p = some (readSqD b p) := by
  unfold readSq
  rw [if_pos h]

theorem writeSq_ok (b : Board) (p : Pos) (v : Option Piece)
    (h : move_okay p = true) : writeSq b p v = some (writeSqD b p v) := by
  unfold writeSq
  rw [if_pos h]

theorem simKingAt_eval (b : Board) (c : Color) (pos target : Pos)
    (h1 : move_okay pos = true) (h2 : move_okay target = true) :
    simKingAt b c pos target =
      some (mkSim (writeSqD (writeSqD b pos none) target
        (some ⟨PieceRole.King, c, true⟩)) c) := by
  unfold simKingAt
  rw [writeSq_ok b pos none h1]
  simp only []
  rw [writeSq_ok _ target _ h2]

theorem in_check_mkSim (b : Board) (c : Color) :
    in_check (mkSim b c) c = inCheckB b none c := rfl

theorem parse_mvStr (a bb : Int) (h1 : 0 ≤ a) (h2 : a ≤ 7) (h3 : 0 ≤ bb)
    (h4 : bb ≤ 7) : parseSq (mvStr [a, bb]) = some [a, bb] := by
  interval_cases a <;> interval_cases bb <;> decide

theorem king_raw_mem (pc : Piece) (b : Board) (ep : Option Pos) (pos : Pos)
    (atk : Bool) (m : Pos) (hrole : pc.role = PieceRole.King)
    (h : m ∈ rawMoves pc b ep pos atk) :
    ∃ d ∈ kingOffsets, m = step pos d 1 ∧ move_okay m = true := by
  obtain ⟨role, col, mv⟩ := pc
  simp only at hrole
  subst hrole
  simp only [rawMoves] at h
  rw [List.mem_filter] at h
  obtain ⟨hm, hok⟩ := h
  rw [List.mem_map] at hm
  obtain ⟨d, hd, heq⟩ := hm
  exact ⟨d, hd, heq.symm, hok⟩

theorem king_raw_no6 (pc : Piece) (b : Board) (ep : Option Pos) (r : Int)
    (atk : Bool) (hrole : pc.role = PieceRole.King) :
    [r, 6] ∉ rawMoves pc b ep [r, 4] atk := by
  intro h
  obtain ⟨d, hd, heq, -⟩ := king_raw_mem pc b ep [r, 4] atk [r, 6] hrole h
  simp only [kingOffsets, List.mem_cons, List.not_mem_nil, or_false] at hd
  rcases hd with rfl | rfl | rfl | rfl | rfl | rfl | rfl | rfl <;>
    (simp only [step, px_pair, py_pair, List.cons.injEq, and_true] at heq; omega)

theorem qcastle_eval (pc : Piece) (b : Board) (r : Int) (hr0 : 0 ≤ r)
    (hr7 : r ≤ 7) :
    ∃ q, qcastle pc b [r, 4] = some q ∧ ∀ m ∈ q, m = [r, 2] := by
  unfold qcastle
  have e0 : ([px ([r, 4] : Pos), py ([r, 4] : Pos) - 4] : Pos) = [r, 0] := by
    simp only [px_pair, py_pair, List.cons.injEq, and_true]
    exact ⟨trivial, by decide⟩
  have e3 : ([px ([r, 4] : Pos), py ([r, 4] : Pos) - 1] : Pos) = [r, 3] := by
    simp only [px_pair, py_pair, List.cons.injEq, and_true]
    exact ⟨trivial, by decide⟩
  have e2 : ([px ([r, 4] : Pos), py ([r, 4] : Pos) - 2] : Pos) = [r, 2] := by
    simp only [px_pair, py_pair, List.cons.injEq, and_true]
    exact ⟨trivial, by decide⟩
  have e1 : ([px ([r, 4] : Pos), py ([r, 4] : Pos) - 3] : Pos) = [r, 1] := by
    simp only [px_pair, py_pair, List.cons.injEq, and_true]
    exact ⟨trivial, by decide⟩
  rw [e0, e3, e2, e1]
  have hok4 : move_okay [r, 4] = true :=
    move_okay_rc r 4 hr0 hr7 (by norm_num) (by norm_num)
  rw [readSq_ok b [r, 0] (move_okay_rc r 0 hr0 hr7 (by norm_num) (by norm_num)),
    readSq_ok b [r, 3] (move_okay_rc r 3 hr0 hr7 (by norm_num) (by norm_num)),
    readSq_ok b [r, 2] (move_okay_rc r 2 hr0 hr7 (by norm_num) (by norm_num)),
    readSq_ok b [r, 1] (move_okay_rc r 1 hr0 hr7 (by norm_num) (by norm_num)),
    simKingAt_eval b pc.color [r, 4] [r, 3] hok4
      (move_okay_rc r 3 hr0 hr7 (by norm_num) (by norm_num)),
    simKingAt_eval b pc.color [r, 4] [r, 2] hok4
      (move_okay_rc r 2 hr0 hr7 (by norm_num) (by norm_num))]
  repeat' split
  all_goals first
    | exact ⟨_, rfl, by simp⟩
    | simp_all

theorem kcastle_eval (pc : Piece) (b : Board) (r : Int) (hr0 : 0 ≤ r)
    (hr7 : r ≤ 7) :
    ∃ l, kcastle pc b [r, 4] = some l ∧ (∀ m ∈ l, m = [r, 6]) ∧
      ([r, 6] ∈ l ↔ kingsideOK b pc r) := by
  unfold kcastle
  have e7 : ([px ([r, 4] : Pos), py ([r, 4] : Pos) + 3] : Pos) = [r, 7] := by
    simp only [px_pair, py_pair, List.cons.injEq, and_true]
    exact ⟨trivial, by decide⟩
  have e5 : ([px ([r, 4] : Pos), py ([r, 4] : Pos) + 1] : Pos) = [r, 5] := by
    simp only [px_pair, py_pair, List.cons.injEq, and_true]
    exact ⟨trivial, by decide⟩
  have e6 : ([px ([r, 4] : Pos), py ([r, 4] : Pos) + 2] : Pos) = [r, 6] := by
    simp only [px_pair, py_pair, List.cons.injEq, and_true]
    exact ⟨trivial, by decide⟩
  rw [e7, e5, e6]
  have hok4 : move_okay [r, 4] = true :=
    move_okay_rc r 4 hr0 hr7 (by norm_num) (by norm_num)
  have hok5 : move_okay [r, 5] = true :=
    move_okay_rc r 5 hr0 hr7 (by norm_num) (by norm_num)
  have hok6 : move_okay [r, 6] = true :=
    move_okay_rc r 6 hr0 hr7 (by norm_num) (by norm_num)
  have hok7 : move_okay [r, 7] = true :=
    move_okay_rc r 7 hr0 hr7 (by norm_num) (by norm_num)
  rw [readSq_ok b [r, 7] hok7, readSq_ok b [r, 5] hok5, readSq_ok b [r, 6] hok6,
    simKingAt_eval b pc.color [r, 4] [r, 5] hok4 hok5,
    simKingAt_eval b pc.color [r, 4] [r, 6] hok4 hok6]
  by_cases hg : ¬(in_check (mkSim b pc.color) pc.color) ∧ ¬pc.has_moved
  case neg =>
    rw [if_neg hg]
    refine ⟨[], rfl, by simp, iff_of_false (by simp) ?_⟩
    rintro ⟨hOK1, hOK2, -, -, -, -, -⟩
    refine hg ⟨?_, ?_⟩
    · rw [in_check_mkSim, hOK1]; simp
    · rw [hOK2]; simp
  case pos =>
    rw [if_pos hg]
    cases h7 : readSqD b [r, 7] with
    | none =>
      refine ⟨[], rfl, by simp, iff_of_false (by simp) ?_⟩
      rintro ⟨-, -, ⟨rk', hrk', -, -⟩, -, -, -, -⟩
      rw [h7] at hrk'
      cases hrk'
    | some rk =>
      simp only []
      by_cases hrr : rk.role = PieceRole.Rook ∧ ¬rk.has_moved
      case neg =>
        rw [if_neg hrr]
        refine ⟨[], rfl, by simp, iff_of_false (by simp) ?_⟩
        rintro ⟨-, -, ⟨rk', hrk', hrkrole', hrkmv'⟩, -, -, -, -⟩
        rw [h7] at hrk'
        injection hrk' with hrk2
        subst hrk2
        exact hrr ⟨hrkrole', fun htt => by rw [hrkmv'] at htt; cases htt⟩
      case pos =>
        rw [if_pos hrr]
        cases h5 : readSqD b [r, 5] with
        | some p5 =>
          rw [if_pos (show (some p5).isSome = true from rfl)]
          refine ⟨[], rfl, by simp, iff_of_false (by simp) ?_⟩
          rintro ⟨-, -, -, hOK4, -, -, -⟩
          rw [h5] at hOK4
          cases hOK4
        | none =>
          rw [if_neg (by simp)]
          rw [in_check_mkSim]
          by_cases hc5 : inCheckB (writeSqD (writeSqD b [r, 4] none) [r, 5]
              (some ⟨PieceRole.King, pc.color, true⟩)) none pc.color = true
          case pos =>
            rw [if_pos hc5]
            refine ⟨[], rfl, by simp, iff_of_false (by simp) ?_⟩
            rintro ⟨-, -, -, -, hOK5, -, -⟩
            rw [hOK5] at hc5
            cases hc5
          case neg =>
            rw [if_neg hc5]
            cases h6 : readSqD b [r, 6] with
            | some p6 =>
              rw [if_pos (show (some p6).isSome = true from rfl)]
              refine ⟨[], rfl, by simp, iff_of_false (by simp) ?_⟩
              rintro ⟨-, -, -, -, -, hOK6, -⟩
              rw [h6] at hOK6
              cases hOK6
            | none =>
              rw [if_neg (by simp)]
              rw [in_check_mkSim]
              by_cases hc6 : inCheckB (writeSqD (writeSqD b [r, 4] none) [r, 6]
                  (some ⟨PieceRole.King, pc.color, true⟩)) none pc.color = true
              case pos =>
                rw [if_pos hc6]
                refine ⟨[], rfl, by simp, iff_of_false (by simp) ?_⟩
                rintro ⟨-, -, -, -, -, -, hOK7⟩
                rw [hOK7] at hc6
                cases hc6
              case neg =>
                rw [if_neg hc6]
                refine ⟨[[r, 6]], rfl, by simp, iff_of_true (by simp) ?_⟩
                refine ⟨?_, ?_, ⟨rk, h7, hrr.1, ?_⟩, h5, ?_, h6, ?_⟩
                · rw [← in_check_mkSim]
                  rw [← Bool.not_eq_true]
                  exact hg.1
                · rw [← Bool.not_eq_true]
                  exact hg.2
                · rw [← Bool.not_eq_true]
                  exact hrr.2
                · rw [← Bool.not_eq_true]
                  exact hc5
                · rw [← Bool.not_eq_true]
                  exact hc6

theorem filterPhase_some (g : Game) (pc : Piece) (pos : Pos) :
    ∀ (l acc : List Pos),
      (∀ mv ∈ l, (make_move_silent g (mvStr pos) (mvStr mv)).isSome = true) →
      ∃ out, filterPhase g pc pos l acc = some out
  | [], acc, _ => ⟨acc, rfl⟩
  | mv :: rest, acc, h => by
    have hmv := h mv (List.mem_cons_self mv rest)
    rw [Option.isSome_iff_exists] at hmv
    obtain ⟨res, hres⟩ := hmv
    unfold filterPhase
    rw [hres]
    simp only []
    by_cases hchk : in_check res.2 pc.color = true
    · rw [if_pos hchk]
      exact filterPhase_some g pc pos rest (acc.erase mv)
        (fun x hx => h x (List.mem_cons_of_mem mv hx))
    · rw [if_neg hchk]
      exact filterPhase_some g pc pos rest acc
        (fun x hx => h x (List.mem_cons_of_mem mv hx))

theorem filterPhase_sub (g : Game) (pc : Piece) (pos : Pos) :
    ∀ (l acc out : List Pos), filterPhase g pc pos l acc = some out →
      out ⊆ acc
  | [], acc, out, h => by
    unfold filterPhase at h
    cases h
    exact fun x hx => hx
  | mv :: rest, acc, out, h => by
    rcases hres : make_move_silent g (mvStr pos) (mvStr mv) with _ | res
    · unfold filterPhase at h
      rw [hres] at h
      simp only [] at h
      cases h
    · unfold filterPhase at h
      rw [hres] at h
      simp only [] at h
      by_cases hchk : in_check res.2 pc.color = true
      · rw [if_pos hchk] at h
        exact fun x hx => List.erase_subset mv acc
          (filterPhase_sub g pc pos rest (acc.erase mv) out h hx)
      · rw [if_neg hchk] at h
        exact filterPhase_sub g pc pos rest acc out h

theorem filterPhase_keep (g : Game) (pc : Piece) (pos m : Pos)
    (hgood : ∀ res, make_move_silent g (mvStr pos) (mvStr m) = some res →
      in_check res.2 pc.color = false) :
    ∀ (l acc out : List Pos), m ∈ acc →
      filterPhase g pc pos l acc = some out → m ∈ out
  | [], acc, out, hm, h => by
    unfold filterPhase at h
    cases h
    exact hm
  | mv :: rest, acc, out, hm, h => by
    rcases hres : make_move_silent g (mvStr pos) (mvStr mv) with _ | res
    · unfold filterPhase at h
      rw [hres] at h
      simp only [] at h
      cases h
    · unfold filterPhase at h
      rw [hres] at h
      simp only [] at h
      by_cases hchk : in_check res.2 pc.color = true
      · rw [if_pos hchk] at h
        by_cases hem : mv = m
        · subst hem
          rw [hgood res hres] at hchk
          cases hchk
        · exact filterPhase_keep g pc pos m hgood rest (acc.erase mv) out
            ((List.mem_erase_of_ne (fun he => hem he.symm)).mpr hm) h
      · rw [if_neg hchk] at h
        exact filterPhase_keep g pc pos m hgood rest acc out hm h

theorem king_silent_castle_eval (g : Game) (pc : Piece) (r : Int)
    (hst : ¬(g.state = GameState.Checkmate ∨ g.state = GameState.Stalemate))
    (hr0 : 0 ≤ r) (hr7 : r ≤ 7)
    (hpc : readSqD g.chessboard [r, 4] = some pc)
    (hrole : pc.role = PieceRole.King) :
    ∃ g1, make_move_silent g (mvStr [r, 4]) (mvStr [r, 6]) = some (none, g1) ∧
      g1.chessboard = writeSqD (writeSqD (writeSqD (writeSqD g.chessboard [r, 6]
        (some ⟨PieceRole.King, pc.color, true⟩)) [r, 4] none) [r, 5]
        (some ⟨PieceRole.Rook, pc.color, true⟩)) [r, 7] none ∧
      g1.ep_square = none := by
  have hok4 : move_okay [r, 4] = true :=
    move_okay_rc r 4 hr0 hr7 (by norm_num) (by norm_num)
  have hok5 : move_okay [r, 5] = true :=
    move_okay_rc r 5 hr0 hr7 (by norm_num) (by norm_num)
  have hok6 : move_okay [r, 6] = true :=
    move_okay_rc r 6 hr0 hr7 (by norm_num) (by norm_num)
  have hok7 : move_okay [r, 7] = true :=
    move_okay_rc r 7 hr0 hr7 (by norm_num) (by norm_num)
  unfold make_move_silent
  rw [if_neg hst]
  rw [parse_mvStr r 4 hr0 hr7 (by norm_num) (by norm_num)]
  simp only []
  rw [readSq_ok _ _ hok4, hpc]
  simp only []
  rw [parse_mvStr r 6 hr0 hr7 (by norm_num) (by norm_num)]
  simp only []
  unfold mutatePhase
  rw [hrole]
  rw [if_neg (fun hcc => absurd hcc.1 (by decide))]
  rw [readSq_ok _ _ hok6]
  simp only []
  rw [writeSq_ok _ _ _ hok6]
  simp only []
  rw [writeSq_ok _ _ _ hok4]
  simp only []
  rw [if_neg (fun hcc => absurd hcc.2 (by decide))]
  simp only []
  rw [if_pos (show True ∧
      (py ([r, 6] : Pos) - py ([r, 4] : Pos)).natAbs = 2 from
      ⟨trivial, by rw [py_pair, py_pair]; decide⟩)]
  have ec1 : ([px ([r, 6] : Pos), py ([r, 6] : Pos) -
      Int.sign (py ([r, 6] : Pos) - py ([r, 4] : Pos))] : Pos) = [r, 5] := by
    simp only [px_pair, py_pair, List.cons.injEq, and_true]
    exact ⟨trivial, by decide⟩
  have ec2 : ([px ([r, 6] : Pos),
      Int.tdiv (7 * py ([r, 6] : Pos) - 14) 4] : Pos) = [r, 7] := by
    simp only [px_pair, py_pair, List.cons.injEq, and_true]
    exact ⟨trivial, by decide⟩
  rw [ec1, ec2]
  rw [writeSq_ok _ _ _ hok5]
  simp only []
  rw [writeSq_ok _ _ _ hok7]
  simp only []
  refine ⟨_, rfl, rfl, ?_⟩
  simp only []
  rw [if_neg (fun hcc => absurd hcc.1 (by decide))]

theorem king_silent_some (g : Game) (pc : Piece) (r a2 b2 : Int)
    (hst : ¬(g.state = GameState.Checkmate ∨ g.state = GameState.Stalemate))
    (hr0 : 0 ≤ r) (hr7 : r ≤ 7) (ha0 : 0 ≤ a2) (ha7 : a2 ≤ 7)
    (hb0 : 0 ≤ b2) (hb7 : b2 ≤ 7)
    (hpc : readSqD g.chessboard [r, 4] = some pc)
    (hrole : pc.role = PieceRole.King) :
    (make_move_silent g (mvStr [r, 4]) (mvStr [a2, b2])).isSome = true := by
  have hok4 : move_okay [r, 4] = true :=
    move_okay_rc r 4 hr0 hr7 (by norm_num) (by norm_num)
  have hokT : move_okay [a2, b2] = true := move_okay_rc a2 b2 ha0 ha7 hb0 hb7
  unfold make_move_silent
  rw [if_neg hst]
  rw [parse_mvStr r 4 hr0 hr7 (by norm_num) (by norm_num)]
  simp only []
  rw [readSq_ok _ _ hok4, hpc]
  simp only []
  rw [parse_mvStr a2 b2 ha0 ha7 hb0 hb7]
  simp only []
  unfold mutatePhase
  rw [hrole]
  rw [if_neg (fun hcc => absurd hcc.1 (by decide))]
  rw [readSq_ok _ _ hokT]
  simp only []
  rw [writeSq_ok _ _ _ hokT]
  simp only []
  rw [writeSq_ok _ _ _ hok4]
  simp only []
  rw [if_neg (fun hcc => absurd hcc.2 (by decide))]
  simp only []
  by_cases hcst : (py ([a2, b2] : Pos) - py ([r, 4] : Pos)).natAbs = 2
  case pos =>
    rw [if_pos (show True ∧
        (py ([a2, b2] : Pos) - py ([r, 4] : Pos)).natAbs = 2 from ⟨trivial, hcst⟩)]
    have hb2 : (b2 - 4).natAbs = 2 := by
      rw [py_pair, py_pair] at hcst
      exact hcst
    have hb26 : b2 = 2 ∨ b2 = 6 := by omega
    rcases hb26 with rfl | rfl
    · have ecA : ([px ([a2, 2] : Pos), py ([a2, 2] : Pos) -
          Int.sign (py ([a2, 2] : Pos) - py ([r, 4] : Pos))] : Pos) = [a2, 3] := by
        simp only [px_pair, py_pair, List.cons.injEq, and_true]
        exact ⟨trivial, by decide⟩
      have ecB : ([px ([a2, 2] : Pos),
          Int.tdiv (7 * py ([a2, 2] : Pos) - 14) 4] : Pos) = [a2, 0] := by
        simp only [px_pair, py_pair, List.cons.injEq, and_true]
        exact ⟨trivial, by decide⟩
      rw [ecA, ecB]
      rw [writeSq_ok _ _ _ (move_okay_rc a2 3 ha0 ha7 (by norm_num) (by norm_num))]
      simp only []
      rw [writeSq_ok _ _ _ (move_okay_rc a2 0 ha0 ha7 (by norm_num) (by norm_num))]
      rfl
    · have ecA : ([px ([a2, 6] : Pos), py ([a2, 6] : Pos) -
          Int.sign (py ([a2, 6] : Pos) - py ([r, 4] : Pos))] : Pos) = [a2, 5] := by
        simp only [px_pair, py_pair, List.cons.injEq, and_true]
        exact ⟨trivial, by decide⟩
      have ecB : ([px ([a2, 6] : Pos),
          Int.tdiv (7 * py ([a2, 6] : Pos) - 14) 4] : Pos) = [a2, 7] := by
        simp only [px_pair, py_pair, List.cons.injEq, and_true]
        exact ⟨trivial, by decide⟩
      rw [ecA, ecB]
      rw [writeSq_ok _ _ _ (move_okay_rc a2 5 ha0 ha7 (by norm_num) (by norm_num))]
      simp only []
      rw [writeSq_ok _ _ _ (move_okay_rc a2 7 ha0 ha7 (by norm_num) (by norm_num))]
      rfl
  case neg =>
    rw [if_neg (fun hcc => hcst hcc.2)]
    rfl

/-- C2: in a well-formed non-terminal position whose king of the moving
color stands unmoved-row square [r,4] (and is the only king of that
color), the kingside castling destination [r,6] belongs to the king's
legal move set (available_moves with only_attack_moves = false and
ignore_check = false) if and only if the two squares between king and
rook are empty, the king and the rook on [r,7] are both unmoved and that
square holds a rook, and the king is not in check on its start, transit,
or destination square. -/
theorem kingside_castle_iff (g : Game) (pc : Piece) (r : Int)
    (hwf : WFBoard g.chessboard)
    (hr0 : 0 ≤ r) (hr7 : r ≤ 7)
    (hst : ¬(g.state = GameState.Checkmate ∨ g.state = GameState.Stalemate))
    (hpc : readSqD g.chessboard [r, 4] = some pc)
    (hrole : pc.role = PieceRole.King)
    (huniq : ∀ p ∈ squaresRM, isKingSq g.chessboard pc.color p = true →
      p = [r, 4]) :
    ∃ mvs, available_moves pc g [r, 4] false false = some mvs ∧
      ([r, 6] ∈ mvs ↔ kingsideOK g.chessboard pc r) := by
  obtain ⟨q, hq, hqsub⟩ := qcastle_eval pc g.chessboard r hr0 hr7
  obtain ⟨k, hk, hksub, hkiff⟩ := kcastle_eval pc g.chessboard r hr0 hr7
  unfold available_moves
  rw [if_pos (show pc.role = PieceRole.King ∧ false = false from ⟨hrole, rfl⟩)]
  rw [hq]
  simp only []
  rw [hk]
  simp only []
  rw [if_neg Bool.false_ne_true]
  have hall : ∀ mv ∈ (rawMoves pc g.chessboard g.ep_square [r, 4] false
      ++ q ++ k).filter (keepSquare g.chessboard pc),
      (make_move_silent g (mvStr [r, 4]) (mvStr mv)).isSome = true := by
    intro mv hmv
    rw [List.mem_filter] at hmv
    rcases List.mem_append.mp hmv.1 with hmv2 | hmvk
    · rcases List.mem_append.mp hmv2 with hmvr | hmvq
      · obtain ⟨d, hd, heq, hokm⟩ :=
          king_raw_mem pc g.chessboard g.ep_square [r, 4] false mv hrole hmvr
        subst heq
        obtain ⟨hA0, hA7, hB0, hB7⟩ := move_okay_coords hokm
        exact king_silent_some g pc r _ _ hst hr0 hr7 hA0 hA7 hB0 hB7 hpc hrole
      · rw [hqsub mv hmvq]
        exact king_silent_some g pc r r 2 hst hr0 hr7 hr0 hr7
          (by norm_num) (by norm_num) hpc hrole
    · rw [hksub mv hmvk]
      exact king_silent_some g pc r r 6 hst hr0 hr7 hr0 hr7
        (by norm_num) (by norm_num) hpc hrole
  obtain ⟨out, hout⟩ := filterPhase_some g pc [r, 4] _ _ hall
  refine ⟨out, hout, ⟨fun hin => ?_, fun hOK => ?_⟩⟩
  · have hsub := filterPhase_sub g pc [r, 4] _ _ out hout hin
    rw [List.mem_filter] at hsub
    rcases List.mem_append.mp hsub.1 with h2 | hk6
    · rcases List.mem_append.mp h2 with hraw | hq6
      · exact absurd hraw
          (king_raw_no6 pc g.chessboard g.ep_square r false hrole)
      · exact absurd (hqsub _ hq6) (by simp)
    · exact hkiff.mp hk6
  · obtain ⟨hOK1, hOK2, ⟨rk, hR, hRrole, hRmv⟩, hE5, hC5, hE6, hC6⟩ := hOK
    have hmemk : [r, 6] ∈ k :=
      hkiff.mpr ⟨hOK1, hOK2, ⟨rk, hR, hRrole, hRmv⟩, hE5, hC5, hE6, hC6⟩
    have hkeep : keepSquare g.chessboard pc [r, 6] = true := by
      unfold keepSquare
      rw [hE6]
    have hflt : [r, 6] ∈ (rawMoves pc g.chessboard g.ep_square [r, 4] false
        ++ q ++ k).filter (keepSquare g.chessboard pc) :=
      List.mem_filter.mpr ⟨List.mem_append.mpr (Or.inr hmemk), hkeep⟩
    have hgood : ∀ res, make_move_silent g (mvStr [r, 4]) (mvStr [r, 6])
        = some res → in_check res.2 pc.color = false := by
      intro res hres
      obtain ⟨g1, hg1, hg1b, hg1e⟩ :=
        king_silent_castle_eval g pc r hst hr0 hr7 hpc hrole
      rw [hg1] at hres
      injection hres with hres2
      subst hres2
      show in_check g1 pc.color = false
      unfold in_check
      rw [hg1b, hg1e]
      obtain ⟨prole, pcol, pmv⟩ := pc
      simp only [] at hrole hOK2
      subst hrole
      subst hOK2
      exact castle_final_check g.chessboard pcol r rk hwf hr0 hr7 hpc huniq
        hE5 hE6 hR hRrole hC6
    exact filterPhase_keep g pc [r, 4] [r, 6] hgood _ _ out hflt hout

theorem kingside_castle_iff_witness :
    WFBoard gameCastle.chessboard ∧
    (∃ mvs, available_moves ⟨PieceRole.King, Color.White, false⟩ gameCastle
        [7, 4] false false = some mvs ∧
      ([7, 6] ∈ mvs ↔ kingsideOK gameCastle.chessboard
        ⟨PieceRole.King, Color.White, false⟩ 7)) :=
  ⟨by unfold WFBoard; decide, kingside_castle_iff gameCastle
    ⟨PieceRole.King, Color.White, false⟩ 7
    (by unfold WFBoard; decide) (by decide) (by decide) (by decide) (by decide)
    (by decide) (by decide)⟩
